import Mathlib

/-!
# Librecast messaging core: address hashing, wire framing, receive loop

A shallow embedding of `src/librecast.c`.  Bytes are natural numbers below 256,
C strings are the bytes (or characters) in front of the terminating NUL, and
64-bit unsigned fields are natural numbers reduced modulo `2^64` wherever the C
code computes with them.  The byte order of the host is an explicit parameter:
`htobe64`, `be64toh` and every `memcpy` between an integer object and a byte
buffer depend on it.

Collaborators that live outside the repository (OpenSSL SHA-1, the libc address
conversion routines, the kernel's datagram delivery, the pthread calls) are
modelled by their documented behaviour; where the source inspects the result
of such a call, that result is a parameter of the model.
-/

namespace Librecast

/-! ## Machine integers and byte order -/

/-- Byte order of the machine the code runs on. -/
inductive Endian
  | little
  | big
deriving DecidableEq, Repr

/-- Big-endian (network order) bytes of a 64-bit value. -/
def be64 (w : Nat) : List Nat :=
  [w / 2^56 % 256, w / 2^48 % 256, w / 2^40 % 256, w / 2^32 % 256,
   w / 2^24 % 256, w / 2^16 % 256, w / 2^8 % 256, w % 256]

/-- Big-endian bytes of a 32-bit value. -/
def be32 (w : Nat) : List Nat :=
  [w / 2^24 % 256, w / 2^16 % 256, w / 2^8 % 256, w % 256]

/-- The number whose big-endian digits (base 256) are `bs`. -/
def be_value (bs : List Nat) : Nat :=
  bs.foldl (fun acc b => acc * 256 + b % 256) 0

/-- In-memory representation of a `uint64_t` object on the given host. -/
def bytes_of_u64 (host : Endian) (v : Nat) : List Nat :=
  match host with
  | Endian.big => be64 v
  | Endian.little => (be64 v).reverse

/-- In-memory representation of an `unsigned int` (32-bit) object. -/
def bytes_of_u32 (host : Endian) (v : Nat) : List Nat :=
  match host with
  | Endian.big => be32 v
  | Endian.little => (be32 v).reverse

/-- Value of the `uint64_t` object stored in the first 8 bytes of `bs`
(missing bytes read as zero). -/
def u64_of_bytes (host : Endian) (bs : List Nat) : Nat :=
  let m := (bs ++ List.replicate 8 0).take 8
  match host with
  | Endian.big => be_value m
  | Endian.little => be_value m.reverse

/-- Byte reversal of a 64-bit value. -/
def bswap64 (v : Nat) : Nat := be_value (be64 v).reverse

/-- Model of `htobe64`: host order to big-endian. -/
def htobe64 (host : Endian) (v : Nat) : Nat :=
  match host with
  | Endian.big => v % 2^64
  | Endian.little => bswap64 v

/-- Model of `be64toh`: big-endian to host order. -/
def be64toh (host : Endian) (v : Nat) : Nat :=
  match host with
  | Endian.big => v % 2^64
  | Endian.little => bswap64 v

/-- Bytes of an ASCII string, as a C `char *` holds them. -/
def cstr (s : String) : List Nat := s.toList.map Char.toNat

/-! ## SHA-1 (OpenSSL `SHA1_Init` / `SHA1_Update` / `SHA1_Final`, FIPS 180-4) -/

/-- Rotate a 32-bit word left. -/
def rotl32 (x n : Nat) : Nat := ((x <<< n) ||| (x >>> (32 - n))) % 2^32

/-- Message padding: a one bit, zeros, and the 64-bit bit length. -/
def sha1_pad (msg : List Nat) : List Nat :=
  msg ++ [0x80] ++ List.replicate ((119 - msg.length % 64) % 64) 0
    ++ be64 (8 * msg.length % 2^64)

/-- Group bytes into big-endian 32-bit words. -/
def sha1_words : List Nat → List Nat
  | a :: b :: c :: d :: rest => (a * 2^24 + b * 2^16 + c * 2^8 + d) :: sha1_words rest
  | _ => []

/-- Extend the 16 words of a block by `n` further schedule words. -/
def sha1_schedule : Nat → List Nat → List Nat
  | 0, w => w
  | n + 1, w =>
    let k := w.length
    sha1_schedule n (w ++ [rotl32 (w.getD (k - 3) 0 ^^^ w.getD (k - 8) 0
      ^^^ w.getD (k - 14) 0 ^^^ w.getD (k - 16) 0) 1])

/-- The five chaining words of SHA-1. -/
structure Sha1State where
  a : Nat
  b : Nat
  c : Nat
  d : Nat
  e : Nat
deriving DecidableEq, Repr

/-- One of the 80 rounds, `t` being the round number and `w` its schedule word. -/
def sha1_round (t : Nat) (w : Nat) (s : Sha1State) : Sha1State :=
  let f := if t < 20 then (s.b &&& s.c) ||| ((s.b ^^^ 0xffffffff) &&& s.d)
           else if t < 40 then s.b ^^^ s.c ^^^ s.d
           else if t < 60 then (s.b &&& s.c) ||| (s.b &&& s.d) ||| (s.c &&& s.d)
           else s.b ^^^ s.c ^^^ s.d
  let k := if t < 20 then 0x5a827999 else if t < 40 then 0x6ed9eba1
           else if t < 60 then 0x8f1bbcdc else 0xca62c1d6
  { a := (rotl32 s.a 5 + f + s.e + k + w) % 2^32, b := s.a, c := rotl32 s.b 30,
    d := s.c, e := s.d }

/-- Run the rounds over the schedule words, starting at round `t`. -/
def sha1_rounds : Nat → List Nat → Sha1State → Sha1State
  | _, [], s => s
  | t, w :: ws, s => sha1_rounds (t + 1) ws (sha1_round t w s)

/-- Compression of one 64-byte block. -/
def sha1_block (h : Sha1State) (block : List Nat) : Sha1State :=
  let s := sha1_rounds 0 (sha1_schedule 64 (sha1_words block)) h
  { a := (h.a + s.a) % 2^32, b := (h.b + s.b) % 2^32, c := (h.c + s.c) % 2^32,
    d := (h.d + s.d) % 2^32, e := (h.e + s.e) % 2^32 }

/-- Compression of `n` consecutive blocks. -/
def sha1_blocks : Nat → Sha1State → List Nat → Sha1State
  | 0, h, _ => h
  | n + 1, h, bs => sha1_blocks n (sha1_block h (bs.take 64)) (bs.drop 64)

/-- The 20-byte SHA-1 digest of a byte string. -/
def SHA1 (msg : List Nat) : List Nat :=
  let p := sha1_pad msg
  let h := sha1_blocks (p.length / 64)
    { a := 0x67452301, b := 0xefcdab89, c := 0x98badcfe, d := 0x10325476, e := 0xc3d2e1f0 } p
  be32 h.a ++ be32 h.b ++ be32 h.c ++ be32 h.d ++ be32 h.e

/-- Length of a SHA-1 digest in bytes. -/
def SHA_DIGEST_LENGTH : Nat := 20

/-! ## libc address conversion (`inet_pton`, `inet_ntop` for `AF_INET6`) -/

/-- Value of a hexadecimal digit, upper or lower case. -/
def hex_digit_value (ch : Char) : Option Nat :=
  if '0' ≤ ch ∧ ch ≤ '9' then some (ch.toNat - '0'.toNat)
  else if 'a' ≤ ch ∧ ch ≤ 'f' then some (ch.toNat - 'a'.toNat + 10)
  else if 'A' ≤ ch ∧ ch ≤ 'F' then some (ch.toNat - 'A'.toNat + 10)
  else none

/-- Scanner state of the dotted-quad parser: finished octets, the octet being
read, whether it has a digit yet, and the number of octets begun. -/
structure Pton4State where
  done : List Nat
  cur : Nat
  saw_digit : Bool
  octets : Nat
deriving DecidableEq, Repr

/-- The scanning loop of `inet_pton4`. -/
def inet_pton4_loop : List Char → Pton4State → Option Pton4State
  | [], s => some s
  | ch :: rest, s =>
    if '0' ≤ ch ∧ ch ≤ '9' then
      let new := s.cur * 10 + (ch.toNat - '0'.toNat)
      if s.saw_digit ∧ s.cur = 0 then none
      else if new > 255 then none
      else if ¬ s.saw_digit then
        if s.octets + 1 > 4 then none
        else inet_pton4_loop rest { s with cur := new, saw_digit := true, octets := s.octets + 1 }
      else inet_pton4_loop rest { s with cur := new }
    else if ch = '.' ∧ s.saw_digit then
      if s.octets = 4 then none
      else inet_pton4_loop rest { s with done := s.done ++ [s.cur], cur := 0, saw_digit := false }
    else none

/-- Dotted-quad IPv4 text to its 4 bytes. -/
def inet_pton4 (src : List Char) : Option (List Nat) :=
  match inet_pton4_loop src { done := [], cur := 0, saw_digit := false, octets := 0 } with
  | none => none
  | some s => if s.octets < 4 then none else some (s.done ++ [s.cur])

/-- Scanner state of the IPv6 parser: bytes written so far, position of the
`::` gap, the group being read and its digit count. -/
structure Pton6State where
  tp : List Nat
  colonp : Option Nat
  val : Nat
  xdigits_seen : Nat
deriving DecidableEq, Repr

/-- The scanning loop of `inet_pton6`; `curtok` is the text of the current group. -/
def inet_pton6_loop : List Char → List Char → Pton6State → Option Pton6State
  | [], _, s => some s
  | ch :: rest, curtok, s =>
    match hex_digit_value ch with
    | some digit =>
      if s.xdigits_seen = 4 then none
      else
        let val := s.val * 16 + digit
        if val > 0xffff then none
        else inet_pton6_loop rest curtok { s with val := val, xdigits_seen := s.xdigits_seen + 1 }
    | none =>
      if ch = ':' then
        if s.xdigits_seen = 0 then
          if s.colonp.isSome then none
          else inet_pton6_loop rest rest { s with colonp := some s.tp.length }
        else if rest = [] then none
        else if s.tp.length + 2 > 16 then none
        else inet_pton6_loop rest rest
          { s with tp := s.tp ++ [s.val / 256 % 256, s.val % 256], val := 0, xdigits_seen := 0 }
      else if ch = '.' ∧ s.tp.length + 4 ≤ 16 then
        match inet_pton4 curtok with
        | some q => some { s with tp := s.tp ++ q, xdigits_seen := 0 }
        | none => none
      else none

/-- Leading `::` handling: a text that starts with a single `:` is rejected,
a leading `::` is entered at its second colon. -/
def inet_pton6_start : List Char → Option (List Char)
  | ':' :: ':' :: rest => some (':' :: rest)
  | ':' :: _ => none
  | cs => some cs

/-- After the scan: store a pending group, move the bytes behind the `::` gap
to the end of the address, and insist that all 16 bytes are accounted for. -/
def inet_pton6_finish (s : Pton6State) : Option (List Nat) :=
  let tp := if s.xdigits_seen ≠ 0 then s.tp ++ [s.val / 256 % 256, s.val % 256] else s.tp
  let out :=
    match s.colonp with
    | some c => tp.take c ++ List.replicate (16 - tp.length) 0 ++ tp.drop c
    | none => tp
  if s.colonp.isSome ∧ tp.length ≥ 16 then none
  else if out.length = 16 then some out
  else none

/-- Model of `inet_pton(AF_INET6, src, dst)`: `some` of the 16 address bytes when
the call returns 1, `none` when the text is not an IPv6 address. -/
def inet_pton (src : String) : Option (List Nat) :=
  match inet_pton6_start src.toList with
  | none => none
  | some body =>
    match inet_pton6_loop body body { tp := [], colonp := none, val := 0, xdigits_seen := 0 } with
    | none => none
    | some s => inet_pton6_finish s

/-- The 16-bit groups of a 16-byte address. -/
def addr_words : List Nat → List Nat
  | hi :: lo :: rest => (hi % 256 * 256 + lo % 256) :: addr_words rest
  | _ => []

/-- Lower-case hexadecimal without leading zeros (`%x`). -/
def hex_text (n : Nat) : List Char := Nat.toDigits 16 n

/-- Decimal text (`%u`). -/
def dec_text (n : Nat) : List Char := Nat.toDigits 10 n

/-- Dotted-quad text of 4 bytes. -/
def inet_ntop4 (bs : List Nat) : List Char :=
  (bs.map fun b => dec_text (b % 256)).intersperse ['.'] |>.flatten

/-- Search for the first longest run of zero groups: `best` and `cur` are
`(base, len)` pairs, `i` the index of the next group. -/
def zero_run_scan : List Nat → Nat → Option (Nat × Nat) → Option (Nat × Nat) → Option (Nat × Nat)
  | [], _, best, cur =>
    match cur, best with
    | some c, some b => if c.2 > b.2 then some c else some b
    | some c, none => some c
    | none, b => b
  | w :: ws, i, best, cur =>
    if w = 0 then
      match cur with
      | none => zero_run_scan ws (i + 1) best (some (i, 1))
      | some c => zero_run_scan ws (i + 1) best (some (c.1, c.2 + 1))
    else
      match cur, best with
      | some c, some b => zero_run_scan ws (i + 1) (if c.2 > b.2 then some c else some b) none
      | some c, none => zero_run_scan ws (i + 1) (some c) none
      | none, b => zero_run_scan ws (i + 1) b none

/-- The run of zero groups that is printed as `::`, if any (at least two groups). -/
def zero_run (words : List Nat) : Option (Nat × Nat) :=
  match zero_run_scan words 0 none none with
  | some b => if b.2 < 2 then none else some b
  | none => none

/-- The formatting loop of `inet_ntop6` from group `i` on. -/
def inet_ntop6_loop (src words : List Nat) (best : Option (Nat × Nat)) : List Nat → List Char
  | [] => []
  | i :: is =>
    let in_run : Bool := match best with
      | some b => decide (b.1 ≤ i ∧ i < b.1 + b.2)
      | none => false
    if in_run then
      (if (best.map Prod.fst) = some i then [':'] else []) ++ inet_ntop6_loop src words best is
    else
      let sep := if i ≠ 0 then [':'] else []
      let v4 : Bool := match best with
        | some b => decide (i = 6 ∧ b.1 = 0 ∧ (b.2 = 6 ∨ (b.2 = 5 ∧ words.getD 5 0 = 0xffff)))
        | none => false
      if v4 then sep ++ inet_ntop4 (src.drop 12)
      else sep ++ hex_text (words.getD i 0) ++ inet_ntop6_loop src words best is

/-- Model of `inet_ntop(AF_INET6, src, dst, INET6_ADDRSTRLEN)`: the canonical
text of a 16-byte address.  With a buffer of `INET6_ADDRSTRLEN` bytes the call
cannot run out of space, so the result is never `none` (a NULL return). -/
def inet_ntop (src : List Nat) : Option String :=
  let words := addr_words ((src ++ List.replicate 16 0).take 16)
  let best := zero_run words
  let body := inet_ntop6_loop ((src ++ List.replicate 16 0).take 16) words best (List.range 8)
  let tail := match best with
    | some b => if b.1 + b.2 = 8 then [':'] else []
    | none => []
  some (String.mk (body ++ tail))

/-! ## Return codes -/

/-- Modelled from the spec: `errors.h`, which gives the `LC_ERROR_*` codes their
numbers, is not among the sources.  `success` is the literal `0` the functions
return; every other constructor is one of the distinct non-zero error codes
that `lc_error_log` hands back to its caller. -/
inductive lc_code
  | success
  | LC_ERROR_FAILURE
  | LC_ERROR_HASH_INIT
  | LC_ERROR_HASH_UPDATE
  | LC_ERROR_HASH_FINAL
  | LC_ERROR_INVALID_BASEADDR
  | LC_ERROR_CTX_REQUIRED
  | LC_ERROR_CHANNEL_REQUIRED
  | LC_ERROR_SOCKET_REQUIRED
  | LC_ERROR_SOCKET_LISTENING
  | LC_ERROR_THREAD_CANCEL
  | LC_ERROR_THREAD_JOIN
  | LC_ERROR_RANDOM_OPEN
  | LC_ERROR_RANDOM_READ
  | LC_ERROR_MALLOC
  | LC_ERROR_INVALID_PARAMS
  | LC_ERROR_MSG_ATTR_UNKNOWN
  | LC_ERROR_DB_OPEN
deriving DecidableEq, Repr

/-! ## Address hasher (`lc_hashgroup`) -/

/-- What the four OpenSSL calls made by `lc_hashgroup` return, in call order
(`0` is failure, anything else success). -/
structure sha_returns where
  SHA1_Init : Nat
  SHA1_Update_name : Nat
  SHA1_Update_flags : Nat
  SHA1_Final : Nat
deriving DecidableEq, Repr

/-- OpenSSL as it behaves in practice: every call reports success. -/
def sha_ok : sha_returns :=
  { SHA1_Init := 1, SHA1_Update_name := 1, SHA1_Update_flags := 1, SHA1_Final := 1 }

/-- The loop `for (i = 0; i < 14; i++) binaddr[i+2] ^= hashgrp[i];`. -/
def hashgroup_xor (binaddr hashgrp : List Nat) : List Nat :=
  (List.range 14).foldl
    (fun b i => b.set (i + 2) (b.getD (i + 2) 0 ^^^ hashgrp.getD i 0)) binaddr

/-- The contents of `binaddr` that `lc_hashgroup` hands to `inet_ntop`: the parsed
base address after the XOR loop; `none` when `inet_pton` rejects the base. -/
def hashgroup_binaddr (host : Endian) (baseaddr : String) (groupname : List Nat)
    (flags : Nat) : Option (List Nat) :=
  match inet_pton baseaddr with
  | none => none
  | some binaddr => some (hashgroup_xor binaddr (SHA1 (groupname ++ bytes_of_u32 host flags)))

/-- The function `lc_hashgroup(baseaddr, groupname, hashaddr, flags)`: the return code and the
contents of the caller's `hashaddr` buffer afterwards.  `groupname = none` is a
NULL pointer. -/
def lc_hashgroup (host : Endian) (sha : sha_returns) (baseaddr : String)
    (groupname : Option (List Nat)) (hashaddr : String) (flags : Nat) : lc_code × String :=
  match groupname with
  | some name =>
    if sha.SHA1_Init = 0 then (lc_code.LC_ERROR_HASH_INIT, hashaddr)
    else if sha.SHA1_Update_name = 0 then (lc_code.LC_ERROR_HASH_UPDATE, hashaddr)
    else if sha.SHA1_Update_flags = 0 then (lc_code.LC_ERROR_HASH_UPDATE, hashaddr)
    else if sha.SHA1_Final = 0 then (lc_code.LC_ERROR_HASH_FINAL, hashaddr)
    else
      match hashgroup_binaddr host baseaddr name flags with
      | none => (lc_code.LC_ERROR_INVALID_BASEADDR, hashaddr)
      | some binaddr =>
        match inet_ntop binaddr with
        | none => (lc_code.LC_ERROR_FAILURE, hashaddr)
        | some text => (lc_code.success, text)
  | none => (lc_code.success, hashaddr)

/-! ## Data model -/

/-- The constant `BUFSIZE`: size of the receive buffer. -/
def BUFSIZE : Nat := 1500

/-- Modelled from the spec: `sizeof(lc_message_head_t)`.  The field types come
from `include/librecast.h`, which is not among the sources; by the wire format
of the spec `lc_seq_t`, `lc_rnd_t` and `lc_len_t` are 64-bit unsigned and
`lc_opcode_t` is one byte, so the packed struct has 8 + 8 + 1 + 8 bytes. -/
def sizeof_lc_message_head_t : Nat := 25

/-- The struct `lc_message_head_t`, each field holding the value of the C object
(as the host reads it). -/
structure lc_message_head_t where
  seq : Nat
  rnd : Nat
  op : Nat
  len : Nat
deriving DecidableEq, Repr

/-- Modelled from the spec: `lc_message_t` is declared in `include/librecast.h`,
which is not among the sources; these are the fields `librecast.c` reads and
writes.  `data` is the buffer `msg->data` points to (empty for NULL); the free
hook and its hint carry no data and are left out. -/
structure lc_message_t where
  data : List Nat
  len : Nat
  op : Nat
  seq : Nat
  rnd : Nat
  sockid : Nat
  src : List Nat
  dst : List Nat
deriving DecidableEq, Repr

/-- The struct `lc_channel_t`.  `uri` is the borrowed C string (`none` for NULL)
and `address` the `sin6_addr` bytes of the resolved `addrinfo`.  The pointers
`next` (list order is the order of `chan_list`), `ctx` and `socket` are not
represented: functions that dereference them without a check are modelled for
channels on which these pointers are valid. -/
structure lc_channel_t where
  uri : Option (List Nat)
  id : Nat
  seq : Nat
  rnd : Nat
  address : List Nat
deriving DecidableEq, Repr

/-- The struct `lc_socket_t`: `thread` is the `pthread_t` of the receive worker
(`0` when there is none), `socket` the descriptor. -/
structure lc_socket_t where
  thread : Nat
  id : Nat
  socket : Int
deriving DecidableEq, Repr

/-- The struct `lc_ctx_t` as far as the modelled functions look at it. -/
structure lc_ctx_t where
  id : Nat
deriving DecidableEq, Repr

/-- The file-scope variables `ctx_id`, `sock_id`, `chan_id` and `chan_list`. -/
structure lc_globals where
  ctx_id : Nat
  sock_id : Nat
  chan_id : Nat
  chan_list : List lc_channel_t
deriving DecidableEq, Repr

/-- A message as `lc_msg_init` leaves it: all bytes zero. -/
def lc_msg_init : lc_message_t :=
  { data := [], len := 0, op := 0, seq := 0, rnd := 0, sockid := 0, src := [], dst := [] }

/-- The function `lc_msg_init_data(msg, data, len, f, hint)`: a zeroed message holding a copy of
the first `len` bytes of `data`. -/
def lc_msg_init_data (data : List Nat) (len : Nat) : lc_message_t :=
  { lc_msg_init with data := (data ++ List.replicate len 0).take len, len := len % 2^64 }

/-! ## Random source (`lc_getrandom`) -/

/-- What happens on `/dev/urandom`: the device cannot be opened, the read fails,
or the read delivers bytes. -/
inductive urandom_result
  | open_failed
  | read_failed
  | bytes (bs : List Nat)
deriving DecidableEq, Repr

/-- The function `lc_getrandom(buf, buflen, flags)`: the return code and the buffer afterwards.
Bytes that were read replace the front of the buffer; `flags` is ignored. -/
def lc_getrandom (dev : urandom_result) (buf : List Nat) (buflen : Nat) : lc_code × List Nat :=
  match dev with
  | urandom_result.open_failed => (lc_code.LC_ERROR_RANDOM_OPEN, buf)
  | urandom_result.read_failed => (lc_code.LC_ERROR_RANDOM_READ, buf)
  | urandom_result.bytes bs =>
    let got := (bs.take buflen).map (fun b => b % 256)
    (lc_code.success, got ++ buf.drop got.length)

/-! ## Wire codec: sending (`lc_msg_send`) -/

/-- The bytes of a `lc_message_head_t` object in memory (packed, host order),
as `memcpy(buf, head, sizeof(lc_message_head_t))` copies them. -/
def head_bytes (host : Endian) (head : lc_message_head_t) : List Nat :=
  bytes_of_u64 host head.seq ++ bytes_of_u64 host head.rnd ++ [head.op % 256]
    ++ bytes_of_u64 host head.len

/-- The `lc_message_head_t` object that `memcpy(&head, buf, sizeof(lc_message_head_t))`
produces from the first 25 bytes of `buf`. -/
def head_of_bytes (host : Endian) (buf : List Nat) : lc_message_head_t :=
  { seq := u64_of_bytes host (buf.take 8),
    rnd := u64_of_bytes host ((buf.drop 8).take 8),
    op := buf.getD 16 0 % 256,
    len := u64_of_bytes host ((buf.drop 17).take 8) }

/-- Everything `lc_msg_send` leaves behind: its return code, the channel
afterwards, the header it filled in, the buffer it built, and the datagram
handed to `sendto` (if `sendto` was called). -/
structure send_result where
  code : lc_code
  channel : Option lc_channel_t
  head : Option lc_message_head_t
  buf : List Nat
  sent : Option (List Nat)
deriving DecidableEq, Repr

/-- The function `lc_msg_send(channel, msg)`.  `dev` is what `/dev/urandom` delivers to the
`lc_getrandom` call, `mcast_if` the value of the
`setsockopt(sock, IPPROTO_IPV6, IPV6_MULTICAST_IF, &opt, sizeof(opt) == 0)`
call that guards `sendto`.  A NULL channel is `none`. -/
def lc_msg_send (host : Endian) (dev : urandom_result) (mcast_if : Int)
    (channel : Option lc_channel_t) (msg : lc_message_t) : send_result :=
  match channel with
  | none =>
    { code := lc_code.LC_ERROR_CHANNEL_REQUIRED, channel := none, head := none, buf := [],
      sent := none }
  | some chan =>
    let seq := (chan.seq + 1) % 2^64
    let head : lc_message_head_t :=
      { seq := htobe64 host seq,
        rnd := u64_of_bytes host (lc_getrandom dev (List.replicate 8 0) 8).2,
        op := msg.op % 256,
        len := htobe64 host msg.len }
    let len := msg.len % 2^64
    let buf := head_bytes host head ++ (msg.data ++ List.replicate len 0).take len
    { code := lc_code.success,
      channel := some { chan with seq := seq },
      head := some head,
      buf := buf,
      sent := if mcast_if ≠ 0 then some buf else none }

/-- A run of `lc_msg_send` calls on one channel, each with its own entropy,
`setsockopt` result and message: the channel afterwards and what each call
left behind, in call order. -/
def send_all (host : Endian) :
    lc_channel_t → List (urandom_result × Int × lc_message_t) → lc_channel_t × List send_result
  | chan, [] => (chan, [])
  | chan, (dev, mcast_if, msg) :: rest =>
    let r := lc_msg_send host dev mcast_if (some chan) msg
    let tail := send_all host (r.channel.getD chan) rest
    (tail.1, r :: tail.2)

/-- The `seq` field of a datagram, read as the wire format defines it
(big-endian, bytes 0..7). -/
def wire_seq (buf : List Nat) : Nat := be_value (buf.take 8)

/-- The payload "hi" with opcode 1. -/
def msg_hi : lc_message_t := { lc_msg_init_data (cstr "hi") 2 with op := 1 }

/-- The channel `lc_channel_new` creates for the URI `chan/x` in a process whose
`chan_id` counter stands at 0. -/
def chan_x : lc_channel_t :=
  { uri := some (cstr "chan/x"), id := 1, seq := 0, rnd := 0,
    address := [255, 62, 164, 185, 67, 36, 151, 139, 4, 197, 168, 100, 111, 184, 221, 85] }

/-! ## Channel registry (`lc_channel_new`, `lc_channel_by_address`) -/

/-- Model of `getnameinfo(..., NI_NUMERICHOST)` on an IPv6 socket address without scope:
the numeric text of the address, `none` when the call fails. -/
def getnameinfo (address : List Nat) : Option String := inet_ntop address

/-- Model of `getaddrinfo(host, DEFAULT_PORT, hints, &addr)` with `AI_NUMERICHOST` and
`AF_INET6` hints: the address bytes of the numeric host text, `none` when the
call fails. -/
def getaddrinfo (node : String) : Option (List Nat) := inet_pton node

/-- The scan of `lc_channel_by_address` over the list from position `i` on: the
position of the first channel whose address text equals `addr`. -/
def lc_channel_by_address_from : List lc_channel_t → Nat → String → Option Nat
  | [], _, _ => none
  | p :: rest, i, addr =>
    match getnameinfo p.address with
    | none => lc_channel_by_address_from rest (i + 1) addr
    | some dst => if addr = dst then some i else lc_channel_by_address_from rest (i + 1) addr

/-- The function `lc_channel_by_address(addr)`: the channel found, as its position in
`chan_list` (`none` for NULL). -/
def lc_channel_by_address (chan_list : List lc_channel_t) (addr : String) : Option Nat :=
  lc_channel_by_address_from chan_list 0 addr

/-- The constant `DEFAULT_ADDR`. -/
def DEFAULT_ADDR : String := "ff3e::"

/-- The function `lc_channel_new(ctx, uri)`: the globals afterwards and the channel created
(`none` for a NULL return).  `stack` is what the uninitialised `hashaddr`
buffer happens to hold. -/
def lc_channel_new (host : Endian) (sha : sha_returns) (stack : String) (g : lc_globals)
    (ctx : Option lc_ctx_t) (uri : Option (List Nat)) : lc_globals × Option lc_channel_t :=
  match ctx with
  | none => (g, none)
  | some _ =>
    let h := lc_hashgroup host sha DEFAULT_ADDR uri stack 0
    if h.1 ≠ lc_code.success then (g, none)
    else
      match getaddrinfo h.2 with
      | none => (g, none)
      | some addr =>
        let chan_id := (g.chan_id + 1) % 2^32
        let channel : lc_channel_t :=
          { uri := uri, id := chan_id, seq := 0, rnd := 0, address := addr }
        ({ g with chan_id := chan_id, chan_list := g.chan_list ++ [channel] }, some channel)

/-! ## Receiving (`lc_msg_recv`, `lc_socket_listen_thread`) -/

/-- What the kernel does on `recvmsg`: fail, or deliver a datagram together with
the `IPV6_PKTINFO` destination and the source address (when that control message
is present). -/
inductive recvmsg_result
  | error
  | datagram (bytes : List Nat) (pktinfo : Option (List Nat × List Nat))
deriving DecidableEq, Repr

/-- What `lc_msg_recv` hands back: its return value and the contents of `*msg`,
`*dst` and `*src`. -/
structure recv_result where
  len : Int
  buf : List Nat
  dst : List Nat
  src : List Nat
deriving DecidableEq, Repr

/-- The function `lc_msg_recv(sock, &msg, &dst, &src)`: a zeroed buffer of `BUFSIZE` bytes
receives at most `BUFSIZE - 1` bytes of the datagram (`iov_len`); the rest of a
longer datagram is discarded by the kernel.  `dst` and `src` keep their old
contents unless a packet-info control message arrived. -/
def lc_msg_recv (r : recvmsg_result) (dst src : List Nat) : recv_result :=
  match r with
  | recvmsg_result.error => { len := -1, buf := List.replicate BUFSIZE 0, dst := dst, src := src }
  | recvmsg_result.datagram bytes pktinfo =>
    let got := bytes.take (BUFSIZE - 1)
    let buf := got ++ List.replicate (BUFSIZE - got.length) 0
    match pktinfo with
    | some (d, s) =>
      if got.length > 0 then { len := got.length, buf := buf, dst := d, src := s }
      else { len := got.length, buf := buf, dst := dst, src := src }
    | none => { len := got.length, buf := buf, dst := dst, src := src }

/-- The statements `chan->seq = (head.seq > chan->seq) ? head.seq + 1 : chan->seq + 1;`
and `chan->rnd = head.rnd;`. -/
def clock_update (head : lc_message_head_t) (chan : lc_channel_t) : lc_channel_t :=
  { chan with
    seq := if head.seq > chan.seq then (head.seq + 1) % 2^64 else (chan.seq + 1) % 2^64,
    rnd := head.rnd }

/-- The "read header" statements of the receive loop: copy the first 25 bytes of
the buffer into `head`, then `be64toh` on `seq`, `rnd` and `len`. -/
def read_header (host : Endian) (buf : List Nat) : lc_message_head_t :=
  let raw := head_of_bytes host buf
  { seq := be64toh host raw.seq, rnd := be64toh host raw.rnd, op := raw.op,
    len := be64toh host raw.len }

/-- One pass of the `while(1)` body of `lc_socket_listen_thread`: the registry
afterwards, the addresses kept in `dst` and `src`, the message given to
`callback_msg` (if it was called), the channel and message given to
`lc_channel_logmsg` (if it was called), and the value given to `callback_err`
(if it was called). -/
structure listen_result where
  chan_list : List lc_channel_t
  dst : List Nat
  src : List Nat
  delivered : Option lc_message_t
  logged : Option (lc_channel_t × lc_message_t)
  err : Option Int
deriving DecidableEq, Repr

/-- The message the receive loop fills in from the converted header and the
receive buffer (the struct was zeroed before; `op` is not assigned). -/
def listen_message (sockid : Nat) (head : lc_message_head_t) (rcv : recv_result) :
    lc_message_t :=
  { lc_msg_init with
    data := (rcv.buf.drop sizeof_lc_message_head_t).take head.len,
    sockid := sockid, len := head.len, seq := head.seq, rnd := head.rnd,
    src := rcv.src, dst := rcv.dst }

/-- A channel struct with all bytes zero. -/
def zero_channel : lc_channel_t := { uri := none, id := 0, seq := 0, rnd := 0, address := [] }

/-- The body of the receive loop for one `recvmsg`.  `sockid` is `sc->sock->id`,
`has_msg_cb` and `has_err_cb` say whether the two callbacks are non-NULL.  The
result is `none` when `memcpy(msg->data, body, head.len)` would read beyond the
`BUFSIZE` bytes of the receive buffer, which C leaves undefined. -/
def lc_socket_listen_thread_step (host : Endian) (sockid : Nat) (has_msg_cb has_err_cb : Bool)
    (chan_list : List lc_channel_t) (dst src : List Nat) (r : recvmsg_result) :
    Option listen_result :=
  let rcv := lc_msg_recv r dst src
  let dstaddr := (inet_ntop rcv.dst).getD ""
  if rcv.len > 0 then
    let head := read_header host rcv.buf
    if sizeof_lc_message_head_t + head.len > BUFSIZE then none
    else
      let msg := listen_message sockid head rcv
      match lc_channel_by_address chan_list dstaddr with
      | some k =>
        let chan := clock_update head (chan_list.getD k zero_channel)
        some { chan_list := chan_list.set k chan, dst := rcv.dst, src := rcv.src,
               delivered := if has_msg_cb then some msg else none,
               logged := some (chan, msg), err := none }
      | none =>
        some { chan_list := chan_list, dst := rcv.dst, src := rcv.src,
               delivered := if has_msg_cb then some msg else none,
               logged := none, err := none }
  else if rcv.len < 0 then
    some { chan_list := chan_list, dst := rcv.dst, src := rcv.src, delivered := none,
           logged := none, err := if has_err_cb then some rcv.len else none }
  else
    some { chan_list := chan_list, dst := rcv.dst, src := rcv.src, delivered := none,
           logged := none, err := none }

/-! ## Socket listener (`lc_socket_new`, `lc_socket_listen`, `lc_socket_listen_cancel`) -/

/-- A socket together with the receive workers that exist for it: the handles
of the threads started by `pthread_create` for this socket and not yet reaped
by `pthread_join`. -/
structure socket_state where
  sock : lc_socket_t
  workers : List Nat
deriving DecidableEq, Repr

/-- The function `lc_socket_listen(sock, callback_msg, callback_err)`: `tid` is the handle
that `pthread_create` stores in `sock->thread`. -/
def lc_socket_listen (tid : Nat) (s : socket_state) : lc_code × socket_state :=
  if s.sock.thread ≠ 0 then (lc_code.LC_ERROR_SOCKET_LISTENING, s)
  else (lc_code.success, { sock := { s.sock with thread := tid }, workers := tid :: s.workers })

/-- The function `lc_socket_listen_cancel(sock)`: `cancel` and `join` are the values returned
by `pthread_cancel` and `pthread_join`. -/
def lc_socket_listen_cancel (cancel join : Int) (s : socket_state) : lc_code × socket_state :=
  if s.sock.thread ≠ 0 then
    if cancel ≠ 0 then (lc_code.LC_ERROR_THREAD_CANCEL, s)
    else if join ≠ 0 then (lc_code.LC_ERROR_THREAD_JOIN, s)
    else (lc_code.success,
      { sock := { s.sock with thread := 0 }, workers := s.workers.erase s.sock.thread })
  else (lc_code.success, s)

/-- A call on a socket, with the results of the pthread calls it makes. -/
inductive socket_call
  | listen (tid : Nat)
  | listen_cancel (cancel join : Int)
deriving DecidableEq, Repr

/-- Perform one call: the return code and the socket afterwards. -/
def socket_call.run (c : socket_call) (s : socket_state) : lc_code × socket_state :=
  match c with
  | socket_call.listen tid => lc_socket_listen tid s
  | socket_call.listen_cancel cancel join => lc_socket_listen_cancel cancel join s

/-- Perform a sequence of calls on a socket: the socket afterwards. -/
def run_calls : List socket_call → socket_state → socket_state
  | [], s => s
  | c :: cs, s => run_calls cs (c.run s).2

/-- The part of `lc_socket_new(ctx)` that fills in the struct: `calloc` zeroes it,
the id is the incremented `sock_id`, `fd` is the descriptor returned by
`socket()` (left at 0 when that call fails). -/
def lc_socket_new (g : lc_globals) (fd : Int) : lc_globals × socket_state :=
  let sock_id := (g.sock_id + 1) % 2^32
  ({ g with sock_id := sock_id },
   { sock := { thread := 0, id := sock_id, socket := if fd = -1 then 0 else fd }, workers := [] })

/-! ## Text forms of an address

Helper definitions for the round trip of `inet_ntop` and `inet_pton`: the
pieces the canonical text of an address is made of. -/

/-- Hexadecimal groups, each followed by a colon. -/
def groups_text : List Nat → List Char
  | [] => []
  | w :: ws => hex_text w ++ ':' :: groups_text ws

/-- Hexadecimal groups separated by colons. -/
def last_text : List Nat → List Char
  | [] => []
  | [w] => hex_text w
  | w :: ws => hex_text w ++ ':' :: last_text ws

/-- The two bytes of each 16-bit group, high byte first. -/
def group_bytes : List Nat → List Nat
  | [] => []
  | w :: ws => w / 256 % 256 :: w % 256 :: group_bytes ws

/-! ## Sequences of channel creations -/

/-- The file-scope variables as the program starts: all zero, `chan_list` NULL. -/
def lc_globals_init : lc_globals :=
  { ctx_id := 0, sock_id := 0, chan_id := 0, chan_list := [] }

/-- A run of `lc_channel_new` calls, each with the results of its SHA-1 calls, the
contents of its uninitialised `hashaddr` buffer, its context and its URI: the
globals afterwards. -/
def channel_new_all (host : Endian) :
    lc_globals → List (sha_returns × String × Option lc_ctx_t × Option (List Nat)) → lc_globals
  | g, [] => g
  | g, (sha, stack, ctx, uri) :: rest =>
    channel_new_all host (lc_channel_new host sha stack g ctx uri).1 rest

/-- The text of the group address that `lc_hashgroup` derives from the default
base and the URI `uri`. -/
def channel_group_text (host : Endian) (uri : List Nat) : String :=
  (lc_hashgroup host sha_ok DEFAULT_ADDR (some uri) "" 0).2

/-- The channels that a run of `lc_channel_new` calls returns, in the order of
the calls (a NULL return contributes nothing). -/
def channel_new_results (host : Endian) :
    lc_globals → List (sha_returns × String × Option lc_ctx_t × Option (List Nat)) →
      List lc_channel_t
  | _, [] => []
  | g, (sha, stack, ctx, uri) :: rest =>
    match (lc_channel_new host sha stack g ctx uri).2 with
    | none => channel_new_results host (lc_channel_new host sha stack g ctx uri).1 rest
    | some c => c :: channel_new_results host (lc_channel_new host sha stack g ctx uri).1 rest

/-- A call `lc_channel_new(ctx, uri)` with every SHA-1 step succeeding, on a
context with id 1. -/
def new_call (uri : String) : sha_returns × String × Option lc_ctx_t × Option (List Nat) :=
  (sha_ok, "", some { id := 1 }, some (cstr uri))

/-- The channel that `lc_channel_new(ctx, "chan/y")` returns as the second
channel of a process. -/
def chan_y : lc_channel_t :=
  { uri := some (cstr "chan/y"), id := 2, seq := 0, rnd := 0,
    address := [255, 62, 239, 50, 90, 62, 4, 254, 63, 224, 105, 114, 104, 81, 212, 70] }

/-! ## Receive loop with the message struct explicit (`lc_socket_listen_thread`) -/

/-- The assignments of the receive loop to `*msg`: `data`, `sockid`, `len`, `seq`,
`rnd`, `src` and `dst` are written, every other field of the struct keeps the
value the pass found in it. -/
def listen_fill (msg : lc_message_t) (sockid : Nat) (head : lc_message_head_t)
    (rcv : recv_result) : lc_message_t :=
  { msg with
    data := (rcv.buf.drop sizeof_lc_message_head_t).take head.len,
    sockid := sockid, len := head.len, seq := head.seq, rnd := head.rnd,
    src := rcv.src, dst := rcv.dst }

/-- The call `bzero(msg, sizeof(lc_message_t))`: whatever the struct held, all of
its bytes are zero afterwards. -/
def bzero (_ : lc_message_t) : lc_message_t := lc_msg_init

/-- One pass of the `while(1)` body of `lc_socket_listen_thread` with the struct
`*msg` explicit: `msg` is the struct as the pass finds it, `callback_msg` (`none`
for NULL) maps the struct it is handed to what it leaves in it.  The result is
what the pass did and the struct at the end of the pass.  It is `none` where C
leaves the pass undefined: `memcpy` reading beyond the receive buffer, and, after
a failed `recvmsg`, `free(msg)` followed by `free(msg->data)` and `bzero(msg, ...)`
on the freed struct (the error callback, called in between, is not represented). -/
def lc_socket_listen_thread_pass (host : Endian) (sockid : Nat)
    (callback_msg : Option (lc_message_t → lc_message_t))
    (chan_list : List lc_channel_t) (dst src : List Nat) (msg : lc_message_t)
    (r : recvmsg_result) : Option (listen_result × lc_message_t) :=
  let rcv := lc_msg_recv r dst src
  let dstaddr := (inet_ntop rcv.dst).getD ""
  if rcv.len > 0 then
    let head := read_header host rcv.buf
    if sizeof_lc_message_head_t + head.len > BUFSIZE then none
    else
      let msg1 := listen_fill msg sockid head rcv
      let msg2 := match callback_msg with
        | some cb => cb msg1
        | none => msg1
      match lc_channel_by_address chan_list dstaddr with
      | some k =>
        let chan := clock_update head (chan_list.getD k zero_channel)
        some ({ chan_list := chan_list.set k chan, dst := rcv.dst, src := rcv.src,
                delivered := if callback_msg.isSome then some msg1 else none,
                logged := some (chan, msg1), err := none }, bzero msg2)
      | none =>
        some ({ chan_list := chan_list, dst := rcv.dst, src := rcv.src,
                delivered := if callback_msg.isSome then some msg1 else none,
                logged := none, err := none }, bzero msg2)
  else if rcv.len < 0 then none
  else
    some ({ chan_list := chan_list, dst := rcv.dst, src := rcv.src, delivered := none,
            logged := none, err := none }, bzero msg)

/-- The passes of the receive loop for the `recvmsg` outcomes `rs`, one after the
other, each pass starting from the registry, the `dst`, `src` and the struct
`*msg` that the pass before left: what each pass did, or `none` once a pass is
undefined. -/
def lc_socket_listen_thread_loop (host : Endian) (sockid : Nat)
    (callback_msg : Option (lc_message_t → lc_message_t)) :
    List lc_channel_t → List Nat → List Nat → lc_message_t → List recvmsg_result →
      Option (List listen_result)
  | _, _, _, _, [] => some []
  | chan_list, dst, src, msg, r :: rs =>
    match lc_socket_listen_thread_pass host sockid callback_msg chan_list dst src
        msg r with
    | none => none
    | some (res, msg1) =>
      match lc_socket_listen_thread_loop host sockid callback_msg res.chan_list
          res.dst res.src msg1 rs with
      | none => none
      | some out => some (res :: out)

/-- The function `lc_socket_listen_thread(arg)` up to the outcomes `rs` of its first calls of
`recvmsg`: `msg` comes zeroed from `calloc`; `dst` and `src` are what the
uninitialised locals happen to hold. -/
def lc_socket_listen_thread (host : Endian) (sockid : Nat)
    (callback_msg : Option (lc_message_t → lc_message_t))
    (chan_list : List lc_channel_t) (dst src : List Nat) (rs : List recvmsg_result) :
    Option (List listen_result) :=
  lc_socket_listen_thread_loop host sockid callback_msg chan_list dst src
    lc_msg_init rs

/-- A datagram whose 25-byte header carries `seq` 1, `rnd` 0, the opcode byte `op`
and `len` 2, followed by the payload `hi`. -/
def datagram_op (op : Nat) : recvmsg_result :=
  recvmsg_result.datagram
    (be64 1 ++ be64 0 ++ [op] ++ be64 2 ++ [104, 105]) none

/-! ## Key/value framing (`lc_msg_set`, `lc_channel_setval`) -/

/-- Value of the unsigned object of `n` bytes stored in the first `n` bytes of
`bs`, as the host reads it (missing bytes read as zero). -/
def uint_of_bytes (host : Endian) (n : Nat) (bs : List Nat) : Nat :=
  match host with
  | Endian.big => be_value ((bs ++ List.replicate n 0).take n)
  | Endian.little => be_value ((bs ++ List.replicate n 0).take n).reverse

/-- The attributes `lc_msg_set` switches on; `other` is any value of `lc_msg_attr_t`
that reaches the `default` label. -/
inductive lc_msg_attr_t
  | LC_ATTR_DATA
  | LC_ATTR_LEN
  | LC_ATTR_OPCODE
  | other
deriving DecidableEq, Repr

/-- The function `lc_msg_set(msg, attr, value)`: the return code and the message afterwards
(`none` for a NULL `msg`).  `value` is the memory the pointer designates:
`LC_ATTR_DATA` stores the pointer, `LC_ATTR_LEN` reads a `lc_len_t` object
and `LC_ATTR_OPCODE` reads a `lc_opcode_t` object from it.
`sizeof_lc_opcode_t` is the size of that type, which `include/librecast.h`
fixes and which is not among the sources. -/
def lc_msg_set (host : Endian) (sizeof_lc_opcode_t : Nat) (msg : Option lc_message_t)
    (attr : lc_msg_attr_t) (value : List Nat) : lc_code × Option lc_message_t :=
  match msg with
  | none => (lc_code.LC_ERROR_INVALID_PARAMS, none)
  | some m =>
    match attr with
    | lc_msg_attr_t.LC_ATTR_DATA => (lc_code.success, some { m with data := value })
    | lc_msg_attr_t.LC_ATTR_LEN =>
      (lc_code.success, some { m with len := u64_of_bytes host value })
    | lc_msg_attr_t.LC_ATTR_OPCODE =>
      (lc_code.success, some { m with op := uint_of_bytes host sizeof_lc_opcode_t value })
    | lc_msg_attr_t.other => (lc_code.LC_ERROR_MSG_ATTR_UNKNOWN, some m)

/-- The struct `lc_val_t`: `size` bytes are to be read at `data`. -/
structure lc_val_t where
  size : Nat
  data : List Nat
deriving DecidableEq, Repr

/-- Everything `lc_channel_setval` leaves behind: its return code, the message it
handed to `lc_msg_send` and what that call did (`none` when it was not reached). -/
structure setval_result where
  code : lc_code
  msg : Option lc_message_t
  send : Option send_result
deriving DecidableEq, Repr

/-- The function `lc_channel_setval(chan, key, val)`.  `LC_OP_SET` is the value of that
enumerator, `db` says whether `chan->ctx->db` is non-NULL, `db_open` is what
`lc_db_open` returns when it is called, `dev` and `mcast_if` are the
environment of the `lc_msg_send` call.  The result is `none` where C leaves
the call undefined: a `memcpy` that reads beyond the bytes at `key->data` or
`val->data`, a packet size that wraps around `size_t`, or an opcode type wider
than the `int` it is read from. -/
def lc_channel_setval (host : Endian) (sizeof_lc_opcode_t LC_OP_SET : Nat) (db : Bool)
    (db_open : lc_code) (dev : urandom_result) (mcast_if : Int) (chan : lc_channel_t)
    (key val : lc_val_t) : Option setval_result :=
  if db = false ∧ db_open ≠ lc_code.success then
    some { code := db_open, msg := none, send := none }
  else if key.data.length < key.size ∨ val.data.length < val.size
      ∨ 2^64 ≤ 8 + key.size + val.size ∨ 4 < sizeof_lc_opcode_t then none
  else
    let keylen := htobe64 host key.size
    let pkt := bytes_of_u64 host keylen ++ key.data.take key.size ++ val.data.take val.size
    let msg0 := lc_msg_init_data pkt (8 + key.size + val.size)
    let i := bytes_of_u32 host LC_OP_SET
    let msg1 := (lc_msg_set host sizeof_lc_opcode_t (some msg0)
      lc_msg_attr_t.LC_ATTR_OPCODE i).2
    let msg2 := (lc_msg_set host sizeof_lc_opcode_t msg1 lc_msg_attr_t.LC_ATTR_DATA pkt).2
    match msg2 with
    | none => none
    | some msg =>
      some { code := lc_code.success, msg := some msg,
             send := some (lc_msg_send host dev mcast_if (some chan) msg) }

/-! ## Contexts and the id counters (`lc_ctx_new`) -/

/-- Value of the `uint32_t` object stored in the first 4 bytes of `bs`. -/
def u32_of_bytes (host : Endian) (bs : List Nat) : Nat := uint_of_bytes host 4 bs

/-- What the environment does during one call of `lc_ctx_new`: what `/dev/urandom`
delivers to each of the three `lc_getrandom` calls, and the values returned by
`lc_bridge_init`, `lc_tap_create`, `lc_bridge_add_interface`, `lc_db_open` and
`lc_db_schema_create`. -/
structure ctx_env where
  dev_ctx : urandom_result
  dev_sock : urandom_result
  dev_chan : urandom_result
  bridge_init : Int
  tap_create : Int
  bridge_add_interface : Int
  db_open : lc_code
  db_schema_create : lc_code
deriving DecidableEq, Repr

/-- The function `lc_ctx_new()`: the globals afterwards and the context returned (`none` for
NULL).  Each call first reads `sizeof(uint32_t)` bytes from `/dev/urandom` into
each of `ctx_id`, `sock_id` and `chan_id`; the id of the context is the
incremented `ctx_id`. -/
def lc_ctx_new (host : Endian) (env : ctx_env) (g : lc_globals) : lc_globals × Option lc_ctx_t :=
  let ctx_id := u32_of_bytes host (lc_getrandom env.dev_ctx (bytes_of_u32 host g.ctx_id) 4).2
  let sock_id := u32_of_bytes host (lc_getrandom env.dev_sock (bytes_of_u32 host g.sock_id) 4).2
  let chan_id := u32_of_bytes host (lc_getrandom env.dev_chan (bytes_of_u32 host g.chan_id) 4).2
  let g1 : lc_globals := { g with ctx_id := ctx_id, sock_id := sock_id, chan_id := chan_id }
  if env.bridge_init ≠ 0 then (g1, none)
  else
    let id := (ctx_id + 1) % 2^32
    let g2 : lc_globals := { g1 with ctx_id := id }
    if env.tap_create = -1 then (g2, none)
    else if env.bridge_add_interface = -1 then (g2, none)
    else if env.db_open ≠ lc_code.success then (g2, none)
    else if env.db_schema_create ≠ lc_code.success then (g2, none)
    else (g2, some { id := id })

/-- An environment in which every step of `lc_ctx_new` succeeds and
`/dev/urandom` delivers the bytes `10 00 00 00`, `20 00 00 00` and `30 00 00 00`
to the three draws. -/
def ctx_env_ok : ctx_env :=
  { dev_ctx := urandom_result.bytes [16, 0, 0, 0],
    dev_sock := urandom_result.bytes [32, 0, 0, 0],
    dev_chan := urandom_result.bytes [48, 0, 0, 0],
    bridge_init := 0, tap_create := 5, bridge_add_interface := 0,
    db_open := lc_code.success, db_schema_create := lc_code.success }

/-! ## Theorems -/

set_option maxRecDepth 1000000

/-! ### Byte order -/

/-- Horner form of the big-endian value of 8 bytes. -/
theorem be_value_eight (a b c d e f g h : Nat) :
    be_value [a, b, c, d, e, f, g, h] =
      (((((((a % 256) * 256 + b % 256) * 256 + c % 256) * 256 + d % 256) * 256 + e % 256) * 256
        + f % 256) * 256 + g % 256) * 256 + h % 256 := by
  simp [be_value]

/-- Encoding the big-endian value of 8 bytes gives the bytes back (reduced to byte
range). -/
theorem be64_be_value (a b c d e f g h : Nat) :
    be64 (be_value [a, b, c, d, e, f, g, h]) =
      [a % 256, b % 256, c % 256, d % 256, e % 256, f % 256, g % 256, h % 256] := by
  rw [be_value_eight]
  simp only [be64, Nat.reducePow]
  refine congrArg₂ _ (by omega) (congrArg₂ _ (by omega) (congrArg₂ _ (by omega)
    (congrArg₂ _ (by omega) (congrArg₂ _ (by omega) (congrArg₂ _ (by omega)
    (congrArg₂ _ (by omega) (congrArg₂ _ (by omega) rfl)))))))

/-- Decoding the big-endian encoding of `v` gives `v mod 2^64`. -/
theorem be_value_be64 (v : Nat) : be_value (be64 v) = v % 2^64 := by
  have h : v % 2^64 = v % 256^8 := by norm_num
  rw [h]
  simp only [be64, be_value_eight, Nat.mod_mod, Nat.mod_pow_succ, pow_zero, Nat.mod_one,
    Nat.div_one]
  have e1 : (2:Nat)^56 = 256^7 := by norm_num
  have e2 : (2:Nat)^48 = 256^6 := by norm_num
  have e3 : (2:Nat)^40 = 256^5 := by norm_num
  have e4 : (2:Nat)^32 = 256^4 := by norm_num
  have e5 : (2:Nat)^24 = 256^3 := by norm_num
  have e6 : (2:Nat)^16 = 256^2 := by norm_num
  have e7 : (2:Nat)^8 = 256^1 := by norm_num
  rw [e1, e2, e3, e4, e5, e6, e7]
  ring

/-- The big-endian value of 8 bytes fits in 64 bits. -/
theorem be_value_lt (a b c d e f g h : Nat) : be_value [a, b, c, d, e, f, g, h] < 2^64 := by
  rw [be_value_eight]
  simp only [Nat.reducePow]
  omega

/-- A 64-bit value has 8 bytes. -/
theorem be64_length (v : Nat) : (be64 v).length = 8 := rfl

/-- Only the low 64 bits of a value are encoded. -/
theorem be64_mod (v : Nat) : be64 (v % 2^64) = be64 v := by
  have h := be64_be_value (v / 2^56 % 256) (v / 2^48 % 256) (v / 2^40 % 256) (v / 2^32 % 256)
    (v / 2^24 % 256) (v / 2^16 % 256) (v / 2^8 % 256) (v % 256)
  rw [show be_value [v / 2^56 % 256, v / 2^48 % 256, v / 2^40 % 256, v / 2^32 % 256,
    v / 2^24 % 256, v / 2^16 % 256, v / 2^8 % 256, v % 256] = v % 2^64 from be_value_be64 v] at h
  rw [h]
  simp only [be64, Nat.mod_mod]

/-- Distinct 64-bit values have distinct encodings. -/
theorem be64_injective (v w : Nat) (hv : v < 2^64) (hw : w < 2^64) (h : be64 v = be64 w) :
    v = w := by
  have h2 := congrArg be_value h
  rwa [be_value_be64, be_value_be64, Nat.mod_eq_of_lt hv, Nat.mod_eq_of_lt hw] at h2

/-- A list of length 8 is a list of 8 elements. -/
theorem length_eight (l : List Nat) (h : l.length = 8) :
    ∃ a b c d e f g i, l = [a, b, c, d, e, f, g, i] := by
  match l, h with
  | [a, b, c, d, e, f, g, i], _ => exact ⟨a, b, c, d, e, f, g, i, rfl⟩

/-- Byte reversal of the value reverses its encoding. -/
theorem be64_bswap64 (v : Nat) : be64 (bswap64 v) = (be64 v).reverse := by
  show be64 (be_value [v % 256, v / 2^8 % 256, v / 2^16 % 256, v / 2^24 % 256, v / 2^32 % 256,
      v / 2^40 % 256, v / 2^48 % 256, v / 2^56 % 256]) =
    [v % 256, v / 2^8 % 256, v / 2^16 % 256, v / 2^24 % 256, v / 2^32 % 256,
      v / 2^40 % 256, v / 2^48 % 256, v / 2^56 % 256]
  rw [be64_be_value]
  simp only [Nat.mod_mod]

/-- The memory image of `htobe64(v)` is the big-endian encoding of `v`, on
either kind of host. -/
theorem bytes_of_u64_htobe64 (host : Endian) (v : Nat) :
    bytes_of_u64 host (htobe64 host v) = be64 v := by
  cases host with
  | big => simp only [bytes_of_u64, htobe64, be64_mod]
  | little =>
    simp only [bytes_of_u64, htobe64]
    rw [be64_bswap64, List.reverse_reverse]

/-- Reading 8 bytes as a `uint64_t` and applying `be64toh` yields their
big-endian value, on either kind of host. -/
theorem be64toh_u64_of_bytes (host : Endian) (a b c d e f g h : Nat) :
    be64toh host (u64_of_bytes host [a, b, c, d, e, f, g, h]) =
      be_value [a, b, c, d, e, f, g, h] := by
  cases host with
  | big =>
    simp only [be64toh, u64_of_bytes, List.cons_append, List.nil_append, List.take_succ_cons,
      List.take_zero]
    exact Nat.mod_eq_of_lt (be_value_lt a b c d e f g h)
  | little =>
    simp only [be64toh, u64_of_bytes, bswap64, List.cons_append, List.nil_append,
      List.take_succ_cons, List.take_zero, List.reverse_cons, List.reverse_nil]
    rw [be64_be_value]
    simp only [List.reverse_cons, List.reverse_nil, List.nil_append, List.cons_append,
      be_value_eight, Nat.mod_mod]

/-- Writing 8 bytes into a `uint64_t` object and copying the object out again
gives the same bytes back. -/
theorem bytes_of_u64_of_bytes (host : Endian) (a b c d e f g h : Nat) :
    bytes_of_u64 host (u64_of_bytes host [a, b, c, d, e, f, g, h]) =
      [a % 256, b % 256, c % 256, d % 256, e % 256, f % 256, g % 256, h % 256] := by
  cases host with
  | big =>
    simp only [bytes_of_u64, u64_of_bytes, List.cons_append, List.nil_append, List.take_succ_cons,
      List.take_zero]
    rw [be64_be_value]
  | little =>
    simp only [bytes_of_u64, u64_of_bytes, List.cons_append, List.nil_append,
      List.take_succ_cons, List.take_zero, List.reverse_cons, List.reverse_nil]
    rw [be64_be_value]
    simp only [List.reverse_cons, List.reverse_nil, List.nil_append, List.cons_append]

/-! ### Address conversion and the XOR loop -/

/-- A list that passes the final length check of the parser has 16 elements. -/
theorem guarded_length {c : Prop} [Decidable c] (l b : List Nat)
    (h : (if c then none else if l.length = 16 then some l else none) = some b) :
    b.length = 16 := by
  by_cases hc : c
  · simp [hc] at h
  · by_cases hl : l.length = 16
    · simp [hc, hl] at h
      rw [← h]; exact hl
    · simp [hc, hl] at h

/-- The last step of the IPv6 parser yields 16 bytes. -/
theorem inet_pton6_finish_length (s : Pton6State) (b : List Nat)
    (h : inet_pton6_finish s = some b) : b.length = 16 :=
  guarded_length _ b h

/-- An address accepted by `inet_pton` has 16 bytes. -/
theorem inet_pton_length (src : String) (b : List Nat) (h : inet_pton src = some b) :
    b.length = 16 := by
  unfold inet_pton at h
  split at h
  · exact absurd h (by simp)
  · split at h
    · exact absurd h (by simp)
    · exact inet_pton6_finish_length _ _ h

/-- A SHA-1 digest has 20 bytes. -/
theorem SHA1_length (msg : List Nat) : (SHA1 msg).length = 20 := by
  simp [SHA1, be32]

/-- A list of length 16 is a list of 16 elements. -/
theorem length_sixteen (l : List Nat) (h : l.length = 16) :
    ∃ b0 b1 b2 b3 b4 b5 b6 b7 b8 b9 b10 b11 b12 b13 b14 b15,
      l = [b0, b1, b2, b3, b4, b5, b6, b7, b8, b9, b10, b11, b12, b13, b14, b15] := by
  match l, h with
  | [b0, b1, b2, b3, b4, b5, b6, b7, b8, b9, b10, b11, b12, b13, b14, b15], _ =>
    exact ⟨b0, b1, b2, b3, b4, b5, b6, b7, b8, b9, b10, b11, b12, b13, b14, b15, rfl⟩

/-- The XOR loop keeps the length of the address. -/
theorem hashgroup_xor_length (binaddr hashgrp : List Nat) :
    (hashgroup_xor binaddr hashgrp).length = binaddr.length := by
  unfold hashgroup_xor
  generalize List.range 14 = is
  induction is generalizing binaddr with
  | nil => rfl
  | cons i is ih => rw [List.foldl_cons, ih, List.length_set]

/-- The XOR loop, unrolled on a 16-byte address. -/
theorem hashgroup_xor_explicit (b0 b1 b2 b3 b4 b5 b6 b7 b8 b9 b10 b11 b12 b13 b14 b15 : Nat)
    (d : List Nat) :
    hashgroup_xor [b0, b1, b2, b3, b4, b5, b6, b7, b8, b9, b10, b11, b12, b13, b14, b15] d =
      [b0, b1, b2 ^^^ d.getD 0 0, b3 ^^^ d.getD 1 0, b4 ^^^ d.getD 2 0, b5 ^^^ d.getD 3 0,
       b6 ^^^ d.getD 4 0, b7 ^^^ d.getD 5 0, b8 ^^^ d.getD 6 0, b9 ^^^ d.getD 7 0,
       b10 ^^^ d.getD 8 0, b11 ^^^ d.getD 9 0, b12 ^^^ d.getD 10 0, b13 ^^^ d.getD 11 0,
       b14 ^^^ d.getD 12 0, b15 ^^^ d.getD 13 0] := by
  simp only [hashgroup_xor, List.range, List.range.loop, List.foldl_cons, List.foldl_nil,
    List.set_cons_succ, List.set_cons_zero, List.getD_cons_succ, List.getD_cons_zero,
    Nat.reduceAdd]

/-- Bytes 0 and 1 survive the XOR loop; byte `i + 2` is XORed with digest byte `i`. -/
theorem hashgroup_xor_bytes (binaddr hashgrp : List Nat) (h : binaddr.length = 16) :
    (hashgroup_xor binaddr hashgrp).getD 0 0 = binaddr.getD 0 0 ∧
    (hashgroup_xor binaddr hashgrp).getD 1 0 = binaddr.getD 1 0 ∧
    ∀ i, i < 14 →
      (hashgroup_xor binaddr hashgrp).getD (i + 2) 0 = binaddr.getD (i + 2) 0 ^^^ hashgrp.getD i 0 := by
  obtain ⟨b0, b1, b2, b3, b4, b5, b6, b7, b8, b9, b10, b11, b12, b13, b14, b15, rfl⟩ :=
    length_sixteen binaddr h
  rw [hashgroup_xor_explicit]
  refine ⟨rfl, rfl, ?_⟩
  intro i hi
  interval_cases i <;> simp only [List.getD_cons_succ, List.getD_cons_zero, Nat.reduceAdd]

/-! ### Address hasher -/

/-- Known answer for the SHA-1 model: the digest of `abc` (FIPS 180-4, example 1). -/
theorem SHA1_abc :
    SHA1 (cstr "abc") =
      [0xa9, 0x99, 0x3e, 0x36, 0x47, 0x06, 0x81, 0x6a, 0xba, 0x3e,
       0x25, 0x71, 0x78, 0x50, 0xc2, 0x6c, 0x9c, 0xd0, 0xd8, 0x9d] := by
  decide

/-- Known answers for the address conversion model: compression of the longest
zero run, no compression of a single zero group, embedded IPv4, and rejection
of a text with two gaps. -/
theorem inet_known_answers :
    inet_ntop [0xff, 0x3e, 0, 0, 0, 0, 0, 0, 0, 0, 0, 0, 0, 0, 0, 0] = some "ff3e::" ∧
    inet_ntop [0, 1, 0, 0, 0, 0, 0, 2, 0, 0, 0, 0, 0, 0, 0, 3] = some "1:0:0:2::3" ∧
    inet_ntop [0, 1, 0, 0, 0, 2, 0, 3, 0, 4, 0, 5, 0, 6, 0, 7] = some "1:0:2:3:4:5:6:7" ∧
    inet_ntop [0, 0, 0, 0, 0, 0, 0, 0, 0, 0, 255, 255, 1, 2, 3, 4] = some "::ffff:1.2.3.4" ∧
    inet_pton "fe80::1:2" = some [254, 128, 0, 0, 0, 0, 0, 0, 0, 0, 0, 0, 0, 1, 0, 2] ∧
    inet_pton "::ffff:1.2.3.4" = some [0, 0, 0, 0, 0, 0, 0, 0, 0, 0, 255, 255, 1, 2, 3, 4] ∧
    inet_pton "1::2::3" = none ∧
    inet_pton "ff3e:" = none := by
  decide

/-- The default base `ff3e::` in binary. -/
theorem inet_pton_default_addr :
    inet_pton "ff3e::" = some [0xff, 0x3e, 0, 0, 0, 0, 0, 0, 0, 0, 0, 0, 0, 0, 0, 0] := by
  decide

/-- A successful `lc_hashgroup` went through parsing, the XOR loop and formatting. -/
theorem lc_hashgroup_success (host : Endian) (sha : sha_returns) (baseaddr : String)
    (name : List Nat) (hashaddr : String) (flags : Nat) (out : String)
    (h : lc_hashgroup host sha baseaddr (some name) hashaddr flags = (lc_code.success, out)) :
    ∃ base addr, inet_pton baseaddr = some base ∧
      hashgroup_binaddr host baseaddr name flags = some addr ∧
      addr = hashgroup_xor base (SHA1 (name ++ bytes_of_u32 host flags)) ∧
      inet_ntop addr = some out := by
  simp only [lc_hashgroup] at h
  split_ifs at h <;> try (exact absurd h (by simp))
  cases hb : inet_pton baseaddr with
  | none => simp [hashgroup_binaddr, hb] at h
  | some base =>
    simp only [hashgroup_binaddr, hb] at h
    cases ht : inet_ntop (hashgroup_xor base (SHA1 (name ++ bytes_of_u32 host flags))) with
    | none => simp [ht] at h
    | some text =>
      simp only [ht, Prod.mk.injEq, true_and] at h
      exact ⟨base, _, rfl, by simp [hashgroup_binaddr, hb], rfl, by rw [ht, h]⟩

/-- C1: when `lc_hashgroup` succeeds on a non-absent group name, the 16-byte
address it formats is the parsed base address with bytes 0 and 1 unchanged and
byte `i + 2` equal to `base[i + 2] XOR digest[i]` for `i = 0..13`, the digest being
SHA-1 of the name bytes followed by the (host order) flags bytes; with base
`ff3e::` the first two bytes are `0xff, 0x3e`. -/
theorem lc_hashgroup_xor_base (host : Endian) (sha : sha_returns) (baseaddr : String)
    (name : List Nat) (hashaddr : String) (flags : Nat) (out : String)
    (h : lc_hashgroup host sha baseaddr (some name) hashaddr flags = (lc_code.success, out)) :
    ∃ base addr, inet_pton baseaddr = some base ∧ base.length = 16 ∧
      hashgroup_binaddr host baseaddr name flags = some addr ∧
      inet_ntop addr = some out ∧ addr.length = 16 ∧
      addr.getD 0 0 = base.getD 0 0 ∧ addr.getD 1 0 = base.getD 1 0 ∧
      (∀ i, i < 14 → addr.getD (i + 2) 0 =
        base.getD (i + 2) 0 ^^^ (SHA1 (name ++ bytes_of_u32 host flags)).getD i 0) ∧
      (baseaddr = "ff3e::" → addr.take 2 = [0xff, 0x3e]) := by
  obtain ⟨base, addr, hb, ha, hx, ht⟩ := lc_hashgroup_success host sha baseaddr name hashaddr flags out h
  have hl := inet_pton_length baseaddr base hb
  have hbytes := hashgroup_xor_bytes base (SHA1 (name ++ bytes_of_u32 host flags)) hl
  refine ⟨base, addr, hb, hl, ha, ht, ?_, ?_, ?_, ?_, ?_⟩
  · rw [hx, hashgroup_xor_length, hl]
  · rw [hx]; exact hbytes.1
  · rw [hx]; exact hbytes.2.1
  · rw [hx]; exact hbytes.2.2
  · intro hbase
    rw [hbase, inet_pton_default_addr] at hb
    simp only [Option.some.injEq] at hb
    rw [hx, ← hb, hashgroup_xor_explicit]
    rfl

/-- Witness for C1: the name `hello` on base `ff3e::`, flags 0, little-endian host. -/
theorem lc_hashgroup_xor_base_witness :
    lc_hashgroup Endian.little sha_ok "ff3e::" (some (cstr "hello")) "" 0 =
        (lc_code.success, "ff3e:4c0a:f1f9:eb74:89fc:d78f:4046:98d3") ∧
    ∃ base addr, inet_pton "ff3e::" = some base ∧ base.length = 16 ∧
      hashgroup_binaddr Endian.little "ff3e::" (cstr "hello") 0 = some addr ∧
      inet_ntop addr = some "ff3e:4c0a:f1f9:eb74:89fc:d78f:4046:98d3" ∧ addr.length = 16 ∧
      addr.getD 0 0 = base.getD 0 0 ∧ addr.getD 1 0 = base.getD 1 0 ∧
      (∀ i, i < 14 → addr.getD (i + 2) 0 =
        base.getD (i + 2) 0 ^^^ (SHA1 (cstr "hello" ++ bytes_of_u32 Endian.little 0)).getD i 0) ∧
      ("ff3e::" = "ff3e::" → addr.take 2 = [0xff, 0x3e]) :=
  ⟨by decide, lc_hashgroup_xor_base Endian.little sha_ok "ff3e::" (cstr "hello") "" 0
    "ff3e:4c0a:f1f9:eb74:89fc:d78f:4046:98d3" (by decide)⟩

/-- C2: for one base address and one flags word, two group names whose SHA-1
digests (name bytes followed by the flags bytes) differ somewhere in their
first 14 bytes are hashed by `lc_hashgroup` to addresses that differ in at
least one of the bytes 2..15. -/
theorem lc_hashgroup_distinct (host : Endian) (sha : sha_returns) (baseaddr : String)
    (name1 name2 : List Nat) (buf1 buf2 : String) (flags : Nat) (out1 out2 : String)
    (h1 : lc_hashgroup host sha baseaddr (some name1) buf1 flags = (lc_code.success, out1))
    (h2 : lc_hashgroup host sha baseaddr (some name2) buf2 flags = (lc_code.success, out2))
    (hd : ∃ i, i < 14 ∧ (SHA1 (name1 ++ bytes_of_u32 host flags)).getD i 0 ≠
      (SHA1 (name2 ++ bytes_of_u32 host flags)).getD i 0) :
    ∃ addr1 addr2, hashgroup_binaddr host baseaddr name1 flags = some addr1 ∧
      inet_ntop addr1 = some out1 ∧
      hashgroup_binaddr host baseaddr name2 flags = some addr2 ∧
      inet_ntop addr2 = some out2 ∧
      ∃ j, 2 ≤ j ∧ j < 16 ∧ addr1.getD j 0 ≠ addr2.getD j 0 := by
  obtain ⟨base1, addr1, hb1, ha1, hx1, ht1⟩ :=
    lc_hashgroup_success host sha baseaddr name1 buf1 flags out1 h1
  obtain ⟨base2, addr2, hb2, ha2, hx2, ht2⟩ :=
    lc_hashgroup_success host sha baseaddr name2 buf2 flags out2 h2
  have hbase : base2 = base1 := by
    rw [hb1] at hb2
    exact (Option.some.inj hb2).symm
  subst hbase
  have hl := inet_pton_length baseaddr base2 hb1
  obtain ⟨i, hi, hne⟩ := hd
  refine ⟨addr1, addr2, ha1, ht1, ha2, ht2, i + 2, by omega, by omega, ?_⟩
  rw [hx1, hx2, (hashgroup_xor_bytes base2 _ hl).2.2 i hi,
    (hashgroup_xor_bytes base2 _ hl).2.2 i hi]
  intro heq
  exact hne (Nat.xor_right_injective heq)

/-- Witness for C2: the names `a` and `b` on base `ff3e::`, whose digests differ in byte
0. -/
theorem lc_hashgroup_distinct_witness :
    (lc_hashgroup Endian.little sha_ok "ff3e::" (some (cstr "a")) "" 0 =
        (lc_code.success, "ff3e:4d08:5804:ce02:b350:964e:d69a:d9f8") ∧
     lc_hashgroup Endian.little sha_ok "ff3e::" (some (cstr "b")) "" 0 =
        (lc_code.success, "ff3e:b354:c27b:f23:58f:f3b1:3327:6214")) ∧
    ∃ addr1 addr2, hashgroup_binaddr Endian.little "ff3e::" (cstr "a") 0 = some addr1 ∧
      inet_ntop addr1 = some "ff3e:4d08:5804:ce02:b350:964e:d69a:d9f8" ∧
      hashgroup_binaddr Endian.little "ff3e::" (cstr "b") 0 = some addr2 ∧
      inet_ntop addr2 = some "ff3e:b354:c27b:f23:58f:f3b1:3327:6214" ∧
      ∃ j, 2 ≤ j ∧ j < 16 ∧ addr1.getD j 0 ≠ addr2.getD j 0 :=
  ⟨⟨by decide, by decide⟩,
   lc_hashgroup_distinct Endian.little sha_ok "ff3e::" (cstr "a") (cstr "b") "" "" 0
    "ff3e:4d08:5804:ce02:b350:964e:d69a:d9f8" "ff3e:b354:c27b:f23:58f:f3b1:3327:6214"
    (by decide) (by decide) ⟨0, by decide, by decide⟩⟩

/-! ### Wire codec -/

/-- The 8 bytes that `lc_getrandom(&head->rnd, sizeof(lc_rnd_t), 0)` leaves in the
zeroed `rnd` field. -/
theorem lc_getrandom_eight (dev : urandom_result) :
    ∃ a b c d e f g h, (lc_getrandom dev (List.replicate 8 0) 8).2 = [a, b, c, d, e, f, g, h] ∧
      a < 256 ∧ b < 256 ∧ c < 256 ∧ d < 256 ∧ e < 256 ∧ f < 256 ∧ g < 256 ∧ h < 256 := by
  have hlen : ((lc_getrandom dev (List.replicate 8 0) 8).2).length = 8 := by
    cases dev with
    | open_failed => rfl
    | read_failed => rfl
    | bytes bs =>
      simp only [lc_getrandom, List.length_append, List.length_map, List.length_take,
        List.length_drop, List.length_replicate]
      omega
  have hlt : ∀ x ∈ (lc_getrandom dev (List.replicate 8 0) 8).2, x < 256 := by
    intro x hx
    cases dev with
    | open_failed =>
      have := List.eq_of_mem_replicate hx
      omega
    | read_failed =>
      have := List.eq_of_mem_replicate hx
      omega
    | bytes bs =>
      simp only [lc_getrandom, List.mem_append, List.mem_map] at hx
      rcases hx with ⟨y, _, rfl⟩ | hx
      · exact Nat.mod_lt _ (by decide)
      · have := List.eq_of_mem_replicate (List.mem_of_mem_drop hx)
        omega
  obtain ⟨a, b, c, d, e, f, g, h, hl⟩ := length_eight _ hlen
  rw [hl] at hlt
  refine ⟨a, b, c, d, e, f, g, h, hl, ?_, ?_, ?_, ?_, ?_, ?_, ?_, ?_⟩ <;>
    exact hlt _ (by simp)

/-- Layout of the buffer built by `lc_msg_send`: big-endian `seq`, the drawn
bytes exactly as `lc_getrandom` delivered them, the opcode byte, big-endian
`len`, and `len` bytes of payload. -/
theorem lc_msg_send_buf (host : Endian) (dev : urandom_result) (mcast_if : Int)
    (chan : lc_channel_t) (msg : lc_message_t) :
    (lc_msg_send host dev mcast_if (some chan) msg).buf =
      be64 ((chan.seq + 1) % 2^64) ++ (lc_getrandom dev (List.replicate 8 0) 8).2
        ++ [msg.op % 256] ++ be64 msg.len
        ++ (msg.data ++ List.replicate (msg.len % 2^64) 0).take (msg.len % 2^64) := by
  obtain ⟨a, b, c, d, e, f, g, h, hr, ha, hb, hc, hd, he, hf, hg, hh⟩ := lc_getrandom_eight dev
  simp only [lc_msg_send, head_bytes, bytes_of_u64_htobe64, hr, bytes_of_u64_of_bytes,
    Nat.mod_mod, Nat.mod_eq_of_lt ha, Nat.mod_eq_of_lt hb, Nat.mod_eq_of_lt hc,
    Nat.mod_eq_of_lt hd, Nat.mod_eq_of_lt he, Nat.mod_eq_of_lt hf, Nat.mod_eq_of_lt hg,
    Nat.mod_eq_of_lt hh]

/-- What the channel looks like after `lc_msg_send`. -/
theorem lc_msg_send_channel (host : Endian) (dev : urandom_result) (mcast_if : Int)
    (chan : lc_channel_t) (msg : lc_message_t) :
    (lc_msg_send host dev mcast_if (some chan) msg).channel =
      some { chan with seq := (chan.seq + 1) % 2^64 } := rfl

/-- Reading a header from its wire layout, on either kind of host. -/
theorem read_header_layout (host : Endian) (s l : Nat) (a b c d e f g h o : Nat)
    (rest : List Nat) :
    read_header host (be64 s ++ [a, b, c, d, e, f, g, h] ++ [o] ++ be64 l ++ rest) =
      { seq := s % 2^64, rnd := be_value [a, b, c, d, e, f, g, h], op := o % 256,
        len := l % 2^64 } := by
  have hs : be64toh host (u64_of_bytes host (be64 s)) = s % 2^64 := by
    rw [← be_value_be64 s]; exact be64toh_u64_of_bytes host _ _ _ _ _ _ _ _
  have hl : be64toh host (u64_of_bytes host (be64 l)) = l % 2^64 := by
    rw [← be_value_be64 l]; exact be64toh_u64_of_bytes host _ _ _ _ _ _ _ _
  simp only [read_header, head_of_bytes]
  have e1 : (be64 s ++ [a, b, c, d, e, f, g, h] ++ [o] ++ be64 l ++ rest).take 8 = be64 s := rfl
  have e2 : ((be64 s ++ [a, b, c, d, e, f, g, h] ++ [o] ++ be64 l ++ rest).drop 8).take 8
      = [a, b, c, d, e, f, g, h] := rfl
  have e3 : (be64 s ++ [a, b, c, d, e, f, g, h] ++ [o] ++ be64 l ++ rest).getD 16 0 = o := rfl
  have e4 : ((be64 s ++ [a, b, c, d, e, f, g, h] ++ [o] ++ be64 l ++ rest).drop 17).take 8
      = be64 l := rfl
  rw [e1, e2, e3, e4, hs, hl, be64toh_u64_of_bytes]

/-- Header round trip, as far as it holds on every pair of hosts: the receive
loop recovers `seq`, `op` and `len` of the header built by `lc_msg_send`, and
reads as `rnd` the big-endian value of the bytes the sender drew. -/
theorem read_header_of_send (hs hr : Endian) (dev : urandom_result) (mcast_if : Int)
    (chan : lc_channel_t) (msg : lc_message_t) (rest : List Nat) :
    read_header hr ((lc_msg_send hs dev mcast_if (some chan) msg).buf ++ rest) =
      { seq := (chan.seq + 1) % 2^64,
        rnd := be_value (lc_getrandom dev (List.replicate 8 0) 8).2,
        op := msg.op % 256,
        len := msg.len % 2^64 } := by
  rw [lc_msg_send_buf]
  obtain ⟨a, b, c, d, e, f, g, h, hr8, _⟩ := lc_getrandom_eight dev
  rw [hr8, List.append_assoc _ _ rest, read_header_layout]
  simp only [Nat.mod_mod]

/-- The nonce the receive loop reads is `be64toh` of the value the sender holds in
`head->rnd`: the same number on a big-endian sender, the byte-swapped one on a
little-endian sender. -/
theorem read_header_of_send_rnd (hs hr : Endian) (dev : urandom_result) (mcast_if : Int)
    (chan : lc_channel_t) (msg : lc_message_t) (rest : List Nat) :
    ∃ head, (lc_msg_send hs dev mcast_if (some chan) msg).head = some head ∧
      (read_header hr ((lc_msg_send hs dev mcast_if (some chan) msg).buf ++ rest)).rnd =
        be64toh hs head.rnd := by
  refine ⟨_, rfl, ?_⟩
  rw [read_header_of_send]
  obtain ⟨a, b, c, d, e, f, g, h, hr8, _⟩ := lc_getrandom_eight dev
  show be_value (lc_getrandom dev (List.replicate 8 0) 8).2 =
    be64toh hs (u64_of_bytes hs (lc_getrandom dev (List.replicate 8 0) 8).2)
  rw [hr8, be64toh_u64_of_bytes]

/-- C3: on a little-endian host the round trip loses the nonce.  The
header `lc_msg_send` builds holds the drawn nonce 1 in `head->rnd` without
`htobe64`; the receive loop applies `be64toh` to it and reads `2^56`, while
`seq`, `op` and `len` (which the sender did convert) come back unchanged. -/
theorem header_roundtrip_rnd_little_endian :
    ((lc_msg_send Endian.little (urandom_result.bytes [1, 0, 0, 0, 0, 0, 0, 0]) 1
        (some { uri := none, id := 1, seq := 0, rnd := 0, address := [] }) msg_hi).head.map
        (fun h => h.rnd)) = some 1 ∧
    read_header Endian.little
      (lc_msg_send Endian.little (urandom_result.bytes [1, 0, 0, 0, 0, 0, 0, 0]) 1
        (some { uri := none, id := 1, seq := 0, rnd := 0, address := [] }) msg_hi).buf =
      { seq := 1, rnd := 72057594037927936, op := 1, len := 2 } := by
  decide

/-- C4: on a little-endian host bytes 8..15 of the buffer built by
`lc_msg_send` are the host-order bytes of the drawn nonce, not its big-endian
encoding: the nonce `0x8877665544332211` goes out as `11 22 .. 88`, while the
sibling fields `seq` (bytes 0..7) and `len` (bytes 17..24) are big-endian. -/
theorem lc_msg_send_rnd_host_order :
    ((lc_msg_send Endian.little
        (urandom_result.bytes [0x11, 0x22, 0x33, 0x44, 0x55, 0x66, 0x77, 0x88]) 1
        (some { uri := none, id := 1, seq := 0, rnd := 0, address := [] }) msg_hi).head.map
        (fun h => h.rnd)) = some 0x8877665544332211 ∧
    (lc_msg_send Endian.little
        (urandom_result.bytes [0x11, 0x22, 0x33, 0x44, 0x55, 0x66, 0x77, 0x88]) 1
        (some { uri := none, id := 1, seq := 0, rnd := 0, address := [] }) msg_hi).buf =
      [0, 0, 0, 0, 0, 0, 0, 1, 0x11, 0x22, 0x33, 0x44, 0x55, 0x66, 0x77, 0x88, 1,
       0, 0, 0, 0, 0, 0, 0, 2, 104, 105] ∧
    be64 0x8877665544332211 = [0x88, 0x77, 0x66, 0x55, 0x44, 0x33, 0x22, 0x11] := by
  decide

/-! ### Sequence numbers on send -/

/-- Counterexample for C5: at `chan.seq = 2^64 - 1` the pre-increment wraps and
`lc_msg_send` leaves `chan.seq = 0`, which is not greater than the old value. -/
theorem lc_msg_send_seq_wraps :
    ((lc_msg_send Endian.little (urandom_result.bytes [1, 2, 3, 4, 5, 6, 7, 8]) 1
        (some { uri := none, id := 1, seq := 2^64 - 1, rnd := 0, address := [] })
        msg_hi).channel.map (fun c => c.seq)) = some 0 ∧
    ¬ ((2^64 - 1 : Nat) < 0) := by
  decide

/-- C5 (amended): `lc_msg_send` on a non-absent channel returns 0 and leaves
`chan.seq` at `(old + 1) mod 2^64`; whenever the old value is below `2^64 - 1`
the new value is strictly greater and exceeds it by exactly 1. -/
theorem lc_msg_send_seq_increment (host : Endian) (dev : urandom_result) (mcast_if : Int)
    (chan : lc_channel_t) (msg : lc_message_t) :
    (lc_msg_send host dev mcast_if (some chan) msg).code = lc_code.success ∧
    ∃ chan', (lc_msg_send host dev mcast_if (some chan) msg).channel = some chan' ∧
      chan'.seq = (chan.seq + 1) % 2^64 ∧
      (chan.seq < 2^64 - 1 → chan'.seq = chan.seq + 1 ∧ chan.seq < chan'.seq) := by
  refine ⟨rfl, _, rfl, rfl, ?_⟩
  intro h
  have h2 : (chan.seq + 1) % 2^64 = chan.seq + 1 := Nat.mod_eq_of_lt (by omega)
  constructor
  · exact h2
  · show chan.seq < (chan.seq + 1) % 2^64
    omega

/-- Witness for C5: a send on a channel with `seq = 5` leaves `seq = 6`. -/
theorem lc_msg_send_seq_increment_witness :
    (5 : Nat) < 2^64 - 1 ∧
    ∃ chan', (lc_msg_send Endian.little (urandom_result.bytes [1, 2, 3, 4, 5, 6, 7, 8]) 1
        (some { uri := none, id := 1, seq := 5, rnd := 0, address := [] }) msg_hi).channel
          = some chan' ∧ chan'.seq = 6 :=
  ⟨by decide,
   let ⟨_, c, hc, _, himp⟩ := lc_msg_send_seq_increment Endian.little
      (urandom_result.bytes [1, 2, 3, 4, 5, 6, 7, 8]) 1
      { uri := none, id := 1, seq := 5, rnd := 0, address := [] } msg_hi
   ⟨c, hc, (himp (by decide)).1⟩⟩

/-- The `seq` written by one send is the incremented channel `seq`. -/
theorem wire_seq_send (host : Endian) (dev : urandom_result) (mcast_if : Int)
    (chan : lc_channel_t) (msg : lc_message_t) :
    wire_seq (lc_msg_send host dev mcast_if (some chan) msg).buf = (chan.seq + 1) % 2^64 := by
  rw [lc_msg_send_buf]
  have e : (be64 ((chan.seq + 1) % 2^64) ++ (lc_getrandom dev (List.replicate 8 0) 8).2
      ++ [msg.op % 256] ++ be64 msg.len
      ++ (msg.data ++ List.replicate (msg.len % 2^64) 0).take (msg.len % 2^64)).take 8
      = be64 ((chan.seq + 1) % 2^64) := by
    simp only [List.append_assoc]
    rw [List.take_append_of_le_length (by simp [be64_length])]
    exact List.take_of_length_le (by simp [be64_length])
  rw [wire_seq, e, be_value_be64, Nat.mod_mod]

/-- The `seq` values written by a run of sends: the `k`-th send (counting from 1)
writes `(seq0 + k) mod 2^64`. -/
theorem send_all_wire_seqs (host : Endian) (sends : List (urandom_result × Int × lc_message_t))
    (chan : lc_channel_t) :
    (send_all host chan sends).2.map (fun r => wire_seq r.buf) =
      (List.range' 1 sends.length).map (fun k => (chan.seq + k) % 2^64) := by
  induction sends generalizing chan with
  | nil => rfl
  | cons x rest ih =>
    obtain ⟨dev, mcast_if, msg⟩ := x
    simp only [send_all, List.map_cons, List.length_cons, List.range'_succ, wire_seq_send,
      lc_msg_send_channel, Option.getD_some, ih]
    congr 1
    rw [← List.map_add_range' 1 1 rest.length 1, List.map_map]
    apply List.map_congr_left
    intro k _
    simp only [Function.comp_apply]
    omega

/-- Every datagram handed to `sendto` is one of the buffers built, in order. -/
theorem send_all_sent_sublist (host : Endian)
    (sends : List (urandom_result × Int × lc_message_t)) (chan : lc_channel_t) :
    List.Sublist ((send_all host chan sends).2.filterMap (fun r => r.sent))
      ((send_all host chan sends).2.map (fun r => r.buf)) := by
  induction sends generalizing chan with
  | nil => exact List.Sublist.slnil
  | cons x rest ih =>
    obtain ⟨dev, mcast_if, msg⟩ := x
    simp only [send_all, List.map_cons, lc_msg_send_channel, Option.getD_some]
    by_cases hm : mcast_if ≠ 0
    · have hs : (lc_msg_send host dev mcast_if (some chan) msg).sent =
          some (lc_msg_send host dev mcast_if (some chan) msg).buf := by
        simp [lc_msg_send, hm]
      rw [List.filterMap_cons_some hs]
      exact List.Sublist.cons₂ _ (ih _)
    · have hs : (lc_msg_send host dev mcast_if (some chan) msg).sent = none := by
        simp [lc_msg_send, hm]
      rw [List.filterMap_cons_none hs]
      exact List.Sublist.cons _ (ih _)

/-- A channel returned by `lc_channel_new` has `seq = 0` and `rnd = 0`. -/
theorem lc_channel_new_seq (host : Endian) (sha : sha_returns) (stack : String) (g g' : lc_globals)
    (ctx : Option lc_ctx_t) (uri : Option (List Nat)) (chan : lc_channel_t)
    (h : lc_channel_new host sha stack g ctx uri = (g', some chan)) :
    chan.seq = 0 ∧ chan.rnd = 0 := by
  unfold lc_channel_new at h
  split at h
  · simp at h
  · simp only at h
    split at h
    · simp at h
    · split at h
      · simp at h
      · simp only [Prod.mk.injEq, Option.some.injEq] at h
        rw [← h.2]
        exact ⟨rfl, rfl⟩

/-- Evaluation of `lc_channel_new` for the URI `chan/x` in a fresh process. -/
theorem lc_channel_new_chan_x :
    lc_channel_new Endian.little sha_ok ""
        { ctx_id := 0, sock_id := 0, chan_id := 0, chan_list := [] } (some { id := 1 })
        (some (cstr "chan/x")) =
      ({ ctx_id := 0, sock_id := 0, chan_id := 1, chan_list := [chan_x] }, some chan_x) := by
  decide

/-- Counterexample for C6: with `n = 2^64` sends on the fresh channel for `chan/x`, the
last header carries `seq = 0` where the claim wants `2^64`. -/
theorem send_all_wraps_at_2_64 :
    lc_channel_new Endian.little sha_ok ""
        { ctx_id := 0, sock_id := 0, chan_id := 0, chan_list := [] } (some { id := 1 })
        (some (cstr "chan/x")) =
      ({ ctx_id := 0, sock_id := 0, chan_id := 1, chan_list := [chan_x] }, some chan_x) ∧
    ((send_all Endian.little chan_x
        (List.replicate (2^64) (urandom_result.bytes [1, 2, 3, 4, 5, 6, 7, 8], 1, msg_hi))).2.map
        (fun r => wire_seq r.buf))[2^64 - 1]? = some 0 ∧
    (List.range' 1 (2^64))[2^64 - 1]? = some (2^64) := by
  refine ⟨lc_channel_new_chan_x, ?_, ?_⟩
  · rw [send_all_wire_seqs, List.length_replicate, List.getElem?_map,
      List.getElem?_range' 1 1 (by omega)]
    rfl
  · rw [List.getElem?_range' 1 1 (by omega)]
    rfl

/-- C6 (amended): on a channel freshly created by `lc_channel_new`, a run of
`n < 2^64` calls of `lc_msg_send` writes the `seq` values `1, 2, ..., n` into the
`n` datagram headers, in that order, and the `seq` values of the datagrams
handed to `sendto` are strictly increasing. -/
theorem send_all_fresh_seqs (host : Endian) (sha : sha_returns) (stack : String)
    (g g' : lc_globals) (ctx : Option lc_ctx_t) (uri : Option (List Nat)) (chan : lc_channel_t)
    (sends : List (urandom_result × Int × lc_message_t))
    (hnew : lc_channel_new host sha stack g ctx uri = (g', some chan))
    (hn : sends.length < 2^64) :
    (send_all host chan sends).2.length = sends.length ∧
    (send_all host chan sends).2.map (fun r => wire_seq r.buf) = List.range' 1 sends.length ∧
    List.Pairwise (fun a b => a < b)
      (((send_all host chan sends).2.filterMap (fun r => r.sent)).map wire_seq) := by
  have hseq := (lc_channel_new_seq host sha stack g g' ctx uri chan hnew).1
  have hall : (send_all host chan sends).2.map (fun r => wire_seq r.buf)
      = List.range' 1 sends.length := by
    rw [send_all_wire_seqs, hseq]
    conv_rhs => rw [← List.map_id (List.range' 1 sends.length)]
    apply List.map_congr_left
    intro k hk
    have hk2 := (List.mem_range'_1.mp hk).2
    simp only [Nat.zero_add, id_eq]
    exact Nat.mod_eq_of_lt (by omega)
  refine ⟨?_, hall, ?_⟩
  · have := congrArg List.length hall
    simpa using this
  · have hsub := (send_all_sent_sublist host sends chan).map wire_seq
    rw [List.map_map] at hsub
    have hp : List.Pairwise (fun a b => a < b)
        ((send_all host chan sends).2.map (wire_seq ∘ fun r => r.buf)) := by
      have : (send_all host chan sends).2.map (wire_seq ∘ fun r => r.buf)
          = List.range' 1 sends.length := hall
      rw [this]
      exact List.pairwise_lt_range' 1 sends.length
    exact hp.sublist hsub

/-- Witness for C6: three sends on the fresh channel for `chan/x` write `seq` 1, 2, 3. -/
theorem send_all_fresh_seqs_witness :
    (send_all Endian.little chan_x
        [(urandom_result.bytes [1, 2, 3, 4, 5, 6, 7, 8], 1, msg_hi),
         (urandom_result.bytes [8, 7, 6, 5, 4, 3, 2, 1], 0, msg_hi),
         (urandom_result.read_failed, -1, msg_hi)]).2.map (fun r => wire_seq r.buf)
      = [1, 2, 3] :=
  (send_all_fresh_seqs Endian.little sha_ok ""
    { ctx_id := 0, sock_id := 0, chan_id := 0, chan_list := [] }
    { ctx_id := 0, sock_id := 0, chan_id := 1, chan_list := [chan_x] } (some { id := 1 })
    (some (cstr "chan/x")) chan_x
    [(urandom_result.bytes [1, 2, 3, 4, 5, 6, 7, 8], 1, msg_hi),
     (urandom_result.bytes [8, 7, 6, 5, 4, 3, 2, 1], 0, msg_hi),
     (urandom_result.read_failed, -1, msg_hi)]
    (by decide) (by decide)).2.1


/-! ### Receive loop -/

/-- C8: a datagram of 26 bytes whose header announces `len = 5` carries one
payload byte, yet the receive loop does not drop it: it copies 5 bytes out of
the receive buffer (the payload byte and 4 bytes of zero padding), advances
the clock of the registered channel and hands the message to the callback. -/
theorem listen_step_trusts_len :
    lc_socket_listen_thread_step Endian.little 7 true true [chan_x] [] []
      (recvmsg_result.datagram (be64 7 ++ be64 9 ++ [1] ++ be64 5 ++ [65])
        (some (chan_x.address, [254, 128, 0, 0, 0, 0, 0, 0, 0, 0, 0, 0, 0, 0, 0, 1]))) =
      some { chan_list := [{ chan_x with seq := 8, rnd := 9 }],
             dst := chan_x.address,
             src := [254, 128, 0, 0, 0, 0, 0, 0, 0, 0, 0, 0, 0, 0, 0, 1],
             delivered := some { data := [65, 0, 0, 0, 0], len := 5, op := 0, seq := 7, rnd := 9,
                                 sockid := 7,
                                 src := [254, 128, 0, 0, 0, 0, 0, 0, 0, 0, 0, 0, 0, 0, 0, 1],
                                 dst := chan_x.address },
             logged := some ({ chan_x with seq := 8, rnd := 9 },
                             { data := [65, 0, 0, 0, 0], len := 5, op := 0, seq := 7, rnd := 9,
                               sockid := 7,
                               src := [254, 128, 0, 0, 0, 0, 0, 0, 0, 0, 0, 0, 0, 0, 0, 1],
                               dst := chan_x.address }),
             err := none } := by
  decide

/-- The value `lc_msg_recv` returns for a datagram: its length, capped at `BUFSIZE - 1`. -/
theorem lc_msg_recv_len (bytes : List Nat) (pktinfo : Option (List Nat × List Nat))
    (dst src : List Nat) :
    (lc_msg_recv (recvmsg_result.datagram bytes pktinfo) dst src).len =
      ((bytes.take (BUFSIZE - 1)).length : Int) := by
  unfold lc_msg_recv
  simp only
  split
  · split <;> rfl
  · rfl

/-- The buffer `lc_msg_recv` fills for a datagram: at most `BUFSIZE - 1` bytes of it,
then zeros. -/
theorem lc_msg_recv_buf (bytes : List Nat) (pktinfo : Option (List Nat × List Nat))
    (dst src : List Nat) :
    (lc_msg_recv (recvmsg_result.datagram bytes pktinfo) dst src).buf =
      bytes.take (BUFSIZE - 1) ++ List.replicate (BUFSIZE - (bytes.take (BUFSIZE - 1)).length) 0 := by
  unfold lc_msg_recv
  simp only
  split
  · split <;> rfl
  · rfl

/-- What one pass of the receive loop does with a non-empty datagram whose
header `len` stays within the receive buffer. -/
theorem listen_step_datagram (host : Endian) (sockid : Nat) (mcb ecb : Bool)
    (chan_list : List lc_channel_t) (dst src : List Nat) (bytes : List Nat)
    (pktinfo : Option (List Nat × List Nat)) (hne : bytes ≠ [])
    (hin : sizeof_lc_message_head_t +
      (read_header host (lc_msg_recv (recvmsg_result.datagram bytes pktinfo) dst src).buf).len
        ≤ BUFSIZE) :
    ∃ res, lc_socket_listen_thread_step host sockid mcb ecb chan_list dst src
        (recvmsg_result.datagram bytes pktinfo) = some res ∧
      res.delivered = (if mcb then some (listen_message sockid
        (read_header host (lc_msg_recv (recvmsg_result.datagram bytes pktinfo) dst src).buf)
        (lc_msg_recv (recvmsg_result.datagram bytes pktinfo) dst src)) else none) ∧
      res.chan_list = (match lc_channel_by_address chan_list
          ((inet_ntop (lc_msg_recv (recvmsg_result.datagram bytes pktinfo) dst src).dst).getD "")
        with
        | some k => chan_list.set k (clock_update
            (read_header host (lc_msg_recv (recvmsg_result.datagram bytes pktinfo) dst src).buf)
            (chan_list.getD k zero_channel))
        | none => chan_list) := by
  have hpos : (lc_msg_recv (recvmsg_result.datagram bytes pktinfo) dst src).len > 0 := by
    rw [lc_msg_recv_len]
    cases bytes with
    | nil => exact absurd rfl hne
    | cons b bs =>
      have h : 0 < ((b :: bs).take (BUFSIZE - 1)).length := by
        simp [BUFSIZE]
      exact_mod_cast h
  unfold lc_socket_listen_thread_step
  simp only [hpos, if_true, not_lt.mpr hin, if_false]
  split <;> exact ⟨_, rfl, rfl, rfl⟩

/-- Capping a datagram at `BUFSIZE - 1` bytes keeps the header and 1474 bytes of
payload. -/
theorem take_header_append (hdr payload : List Nat) (h : hdr.length = 25) :
    (hdr ++ payload).take (BUFSIZE - 1) = hdr ++ payload.take 1474 := by
  rw [List.take_append_eq_append_take, h, List.take_of_length_le (by rw [h]; decide)]
  rfl

/-- The header the receive loop reads from a datagram that starts with the wire
encoding of `(s, r, o, l)`. -/
theorem read_header_recv (host : Endian) (s r o l : Nat) (payload : List Nat)
    (pktinfo : Option (List Nat × List Nat)) (dst src : List Nat) :
    read_header host (lc_msg_recv
      (recvmsg_result.datagram (be64 s ++ be64 r ++ [o] ++ be64 l ++ payload) pktinfo)
      dst src).buf =
      { seq := s % 2^64, rnd := r % 2^64, op := o % 256, len := l % 2^64 } := by
  rw [lc_msg_recv_buf, take_header_append (be64 s ++ be64 r ++ [o] ++ be64 l) payload rfl,
    List.append_assoc _ (payload.take 1474)]
  have hr : be64 r = [r / 2^56 % 256, r / 2^48 % 256, r / 2^40 % 256, r / 2^32 % 256,
    r / 2^24 % 256, r / 2^16 % 256, r / 2^8 % 256, r % 256] := rfl
  rw [hr, read_header_layout, ← hr, be_value_be64]

/-- The scan returns a position inside the part of the list it walked. -/
theorem lc_channel_by_address_from_lt (l : List lc_channel_t) (i : Nat) (addr : String) (k : Nat)
    (h : lc_channel_by_address_from l i addr = some k) : i ≤ k ∧ k < i + l.length := by
  induction l generalizing i with
  | nil => simp [lc_channel_by_address_from] at h
  | cons p rest ih =>
    unfold lc_channel_by_address_from at h
    split at h
    · have := ih (i + 1) h
      simp only [List.length_cons]
      omega
    · split at h
      · simp only [Option.some.injEq] at h
        simp only [List.length_cons]
        omega
      · have := ih (i + 1) h
        simp only [List.length_cons]
        omega

/-- The position returned by `lc_channel_by_address` is inside `chan_list`. -/
theorem lc_channel_by_address_lt (l : List lc_channel_t) (addr : String) (k : Nat)
    (h : lc_channel_by_address l addr = some k) : k < l.length := by
  have := (lc_channel_by_address_from_lt l 0 addr k h).2
  omega

/-- Counterexample for C7: a header with `received_seq = 2^64 - 1` arriving for a
channel with `seq = 5` sets `chan.seq` to 0, which is below `max(5, 2^64 - 1) + 1`. -/
theorem listen_step_clock_wraps :
    (lc_socket_listen_thread_step Endian.little 7 true true [{ chan_x with seq := 5 }] [] []
      (recvmsg_result.datagram (be64 (2^64 - 1) ++ be64 9 ++ [1] ++ be64 2 ++ [104, 105])
        (some (chan_x.address, [254, 128, 0, 0, 0, 0, 0, 0, 0, 0, 0, 0, 0, 0, 0, 1])))).map
      (fun res => res.chan_list) = some [{ chan_x with seq := 0, rnd := 9 }] ∧
    ¬ ((0 : Nat) ≥ max 5 (2^64 - 1) + 1) := by
  decide

/-- C7 (amended): when a datagram with header `(received_seq, received_rnd)`
arrives for a registered channel, the receive loop sets `chan.seq` to
`(max(received_seq, previous chan.seq) + 1) mod 2^64` and `chan.rnd` to
`received_rnd`; whenever `received_seq` and the previous `chan.seq` are both
below `2^64 - 1` the new `chan.seq` is `max(received_seq + 1, previous + 1)` and
so at least `max(previous, received_seq) + 1`. -/
theorem listen_step_clock (host : Endian) (sockid : Nat) (mcb ecb : Bool)
    (chan_list : List lc_channel_t) (dst src : List Nat)
    (rseq rrnd op len : Nat) (payload : List Nat) (pktinfo : Option (List Nat × List Nat))
    (k : Nat) (chan : lc_channel_t)
    (hseq : rseq < 2^64) (hrnd : rrnd < 2^64) (hlen : sizeof_lc_message_head_t + len ≤ BUFSIZE)
    (hk : lc_channel_by_address chan_list ((inet_ntop (lc_msg_recv (recvmsg_result.datagram
      (be64 rseq ++ be64 rrnd ++ [op] ++ be64 len ++ payload) pktinfo) dst src).dst).getD "")
        = some k)
    (hc : chan_list[k]? = some chan) :
    ∃ res chan', lc_socket_listen_thread_step host sockid mcb ecb chan_list dst src
        (recvmsg_result.datagram (be64 rseq ++ be64 rrnd ++ [op] ++ be64 len ++ payload) pktinfo)
          = some res ∧
      res.chan_list[k]? = some chan' ∧
      chan'.seq = (max rseq chan.seq + 1) % 2^64 ∧
      chan'.rnd = rrnd ∧
      (rseq < 2^64 - 1 → chan.seq < 2^64 - 1 →
        chan'.seq = max (rseq + 1) (chan.seq + 1) ∧ chan'.seq ≥ max chan.seq rseq + 1) := by
  have hlen64 : len % 2^64 = len := Nat.mod_eq_of_lt (by
    have : len ≤ 1500 := by
      have := hlen
      simp only [sizeof_lc_message_head_t, BUFSIZE] at this
      omega
    omega)
  have hhead := read_header_recv host rseq rrnd op len payload pktinfo dst src
  rw [Nat.mod_eq_of_lt hseq, Nat.mod_eq_of_lt hrnd, hlen64] at hhead
  obtain ⟨res, hres, _, hcl⟩ := listen_step_datagram host sockid mcb ecb chan_list dst src
    (be64 rseq ++ be64 rrnd ++ [op] ++ be64 len ++ payload) pktinfo (by simp [be64])
    (by rw [hhead]; exact hlen)
  rw [hk, hhead] at hcl
  have hklt := lc_channel_by_address_lt _ _ _ hk
  have hget : chan_list.getD k zero_channel = chan := by
    rw [List.getD_eq_getElem?_getD, hc]; rfl
  simp only [hget] at hcl
  refine ⟨res, clock_update { seq := rseq, rnd := rrnd, op := op % 256, len := len } chan,
    hres, ?_, ?_, rfl, ?_⟩
  · rw [hcl, List.getElem?_set_self hklt]
  · show (if rseq > chan.seq then (rseq + 1) % 2^64 else (chan.seq + 1) % 2^64)
      = (max rseq chan.seq + 1) % 2^64
    split
    · rw [Nat.max_eq_left (by omega)]
    · rw [Nat.max_eq_right (by omega)]
  · intro h1 h2
    show (if rseq > chan.seq then (rseq + 1) % 2^64 else (chan.seq + 1) % 2^64)
        = max (rseq + 1) (chan.seq + 1) ∧
      (if rseq > chan.seq then (rseq + 1) % 2^64 else (chan.seq + 1) % 2^64)
        ≥ max chan.seq rseq + 1
    split
    · rw [Nat.mod_eq_of_lt (by omega), Nat.max_eq_left (by omega), Nat.max_eq_right (by omega)]
      exact ⟨rfl, le_refl _⟩
    · rw [Nat.mod_eq_of_lt (by omega), Nat.max_eq_right (by omega), Nat.max_eq_left (by omega)]
      exact ⟨rfl, le_refl _⟩

/-- Witness for C7: header `(seq 1, rnd 9)` arriving for the fresh channel `chan/x` sets
its clock to `(2, 9)`. -/
theorem listen_step_clock_witness :
    ∃ res chan', lc_socket_listen_thread_step Endian.little 7 true true [chan_x] [] []
        (recvmsg_result.datagram (be64 1 ++ be64 9 ++ [1] ++ be64 2 ++ [104, 105])
          (some (chan_x.address, [254, 128, 0, 0, 0, 0, 0, 0, 0, 0, 0, 0, 0, 0, 0, 1])))
          = some res ∧
      res.chan_list[0]? = some chan' ∧ chan'.seq = 2 ∧ chan'.rnd = 9 :=
  let ⟨res, c, h1, h2, h3, h4, _⟩ := listen_step_clock Endian.little 7 true true [chan_x] [] []
    1 9 1 2 [104, 105]
    (some (chan_x.address, [254, 128, 0, 0, 0, 0, 0, 0, 0, 0, 0, 0, 0, 0, 0, 1])) 0 chan_x
    (by decide) (by decide) (by decide) (by decide) (by decide)
  ⟨res, c, h1, h2, h3, h4⟩


/-! ### Send, then receive -/

/-- The worker list mirrors `sock->thread`, and `lc_socket_listen` keeps it so. -/
theorem listener_inv_listen (tid : Nat) (s : socket_state) (ht : tid ≠ 0)
    (h : s.workers = if s.sock.thread = 0 then [] else [s.sock.thread]) :
    (lc_socket_listen tid s).2.workers =
      if (lc_socket_listen tid s).2.sock.thread = 0 then []
      else [(lc_socket_listen tid s).2.sock.thread] := by
  by_cases hth : s.sock.thread = 0
  · have hw : s.workers = [] := by rw [h, if_pos hth]
    simp [lc_socket_listen, hth, hw, ht]
  · have hw : s.workers = [s.sock.thread] := by rw [h, if_neg hth]
    simp [lc_socket_listen, hth, hw]

/-- The worker list mirrors `sock->thread`, and `lc_socket_listen_cancel` keeps it so. -/
theorem listener_inv_cancel (cancel join : Int) (s : socket_state)
    (h : s.workers = if s.sock.thread = 0 then [] else [s.sock.thread]) :
    (lc_socket_listen_cancel cancel join s).2.workers =
      if (lc_socket_listen_cancel cancel join s).2.sock.thread = 0 then []
      else [(lc_socket_listen_cancel cancel join s).2.sock.thread] := by
  by_cases hth : s.sock.thread = 0
  · have hw : s.workers = [] := by rw [h, if_pos hth]
    simp [lc_socket_listen_cancel, hth, hw]
  · have hw : s.workers = [s.sock.thread] := by rw [h, if_neg hth]
    by_cases hc : cancel = 0
    · by_cases hj : join = 0
      · simp [lc_socket_listen_cancel, hth, hc, hj, hw]
      · simp [lc_socket_listen_cancel, hth, hc, hj, hw]
    · simp [lc_socket_listen_cancel, hth, hc, hw]

/-- The worker list mirrors `sock->thread` after every sequence of calls in which
`pthread_create` hands out non-zero handles. -/
theorem listener_inv_run (calls : List socket_call) (s : socket_state)
    (ht : socket_call.listen 0 ∉ calls)
    (h : s.workers = if s.sock.thread = 0 then [] else [s.sock.thread]) :
    (run_calls calls s).workers =
      if (run_calls calls s).sock.thread = 0 then [] else [(run_calls calls s).sock.thread] := by
  induction calls generalizing s with
  | nil => exact h
  | cons c cs ih =>
    apply ih
    · intro hm
      exact ht (List.mem_cons_of_mem _ hm)
    · cases c with
      | listen tid =>
        refine listener_inv_listen tid s ?_ h
        intro h0
        rw [h0] at ht
        exact ht (List.mem_cons_self _ _)
      | listen_cancel cancel join => exact listener_inv_cancel cancel join s h

/-- C10: `lc_socket_listen` returns `LC_ERROR_SOCKET_LISTENING` exactly when
`sock->thread` is set, which on every socket obtained from `lc_socket_new` by
listen and cancel calls is exactly when the socket has a worker (started by
`pthread_create` and not reaped since by a successful cancel); such a socket
never has more than one worker; a second listen right after a listen fails
with `LC_ERROR_SOCKET_LISTENING` and changes nothing; after a cancel that
returned 0 a listen succeeds and installs the new worker. -/
theorem lc_socket_listen_iff_worker :
    (∀ (tid : Nat) (s : socket_state),
      (lc_socket_listen tid s).1 = lc_code.LC_ERROR_SOCKET_LISTENING ↔ s.sock.thread ≠ 0) ∧
    (∀ (g : lc_globals) (fd : Int) (calls : List socket_call) (tid : Nat),
      socket_call.listen 0 ∉ calls →
        ((lc_socket_listen tid (run_calls calls (lc_socket_new g fd).2)).1
            = lc_code.LC_ERROR_SOCKET_LISTENING ↔
          (run_calls calls (lc_socket_new g fd).2).workers ≠ []) ∧
        (run_calls calls (lc_socket_new g fd).2).workers.length ≤ 1) ∧
    (∀ (tid1 tid2 : Nat) (s : socket_state), tid1 ≠ 0 →
      lc_socket_listen tid2 (lc_socket_listen tid1 s).2
        = (lc_code.LC_ERROR_SOCKET_LISTENING, (lc_socket_listen tid1 s).2)) ∧
    (∀ (cancel join : Int) (tid : Nat) (s : socket_state),
      (lc_socket_listen_cancel cancel join s).1 = lc_code.success →
        (lc_socket_listen tid (lc_socket_listen_cancel cancel join s).2).1 = lc_code.success ∧
        (lc_socket_listen tid (lc_socket_listen_cancel cancel join s).2).2.sock.thread = tid) := by
  have hiff : ∀ (tid : Nat) (s : socket_state),
      (lc_socket_listen tid s).1 = lc_code.LC_ERROR_SOCKET_LISTENING ↔ s.sock.thread ≠ 0 := by
    intro tid s
    unfold lc_socket_listen
    by_cases hth : s.sock.thread = 0 <;> simp [hth]
  refine ⟨hiff, ?_, ?_, ?_⟩
  · intro g fd calls tid ht
    have hinv := listener_inv_run calls (lc_socket_new g fd).2 ht rfl
    rw [hiff]
    by_cases hth : (run_calls calls (lc_socket_new g fd).2).sock.thread = 0
    · rw [if_pos hth] at hinv
      simp [hth, hinv]
    · rw [if_neg hth] at hinv
      simp [hth, hinv]
  · intro tid1 tid2 s h1
    have hth : (lc_socket_listen tid1 s).2.sock.thread ≠ 0 := by
      unfold lc_socket_listen
      by_cases h0 : s.sock.thread = 0 <;> simp [h0, h1]
    unfold lc_socket_listen at hth ⊢
    by_cases h0 : s.sock.thread = 0
    · simp [h0, h1]
    · simp [h0]
  · intro cancel join tid s hs
    have hth : (lc_socket_listen_cancel cancel join s).2.sock.thread = 0 := by
      unfold lc_socket_listen_cancel at hs ⊢
      by_cases h0 : s.sock.thread = 0
      · simp [h0]
      · by_cases hc : cancel = 0
        · by_cases hj : join = 0
          · simp [h0, hc, hj]
          · simp [h0, hc, hj] at hs
        · simp [h0, hc] at hs
    unfold lc_socket_listen
    simp [hth]

/-- Witness for C10: after listen, cancel, listen on a new socket a further listen
reports `LC_ERROR_SOCKET_LISTENING`, and the socket has the one worker 6. -/
theorem lc_socket_listen_iff_worker_witness :
    ((lc_socket_listen 7 (run_calls [socket_call.listen 5, socket_call.listen_cancel 0 0,
        socket_call.listen 6]
        (lc_socket_new { ctx_id := 0, sock_id := 0, chan_id := 0, chan_list := [] } 3).2)).1
        = lc_code.LC_ERROR_SOCKET_LISTENING ↔
      (run_calls [socket_call.listen 5, socket_call.listen_cancel 0 0, socket_call.listen 6]
        (lc_socket_new { ctx_id := 0, sock_id := 0, chan_id := 0, chan_list := [] } 3).2).workers
        ≠ []) ∧
    (run_calls [socket_call.listen 5, socket_call.listen_cancel 0 0, socket_call.listen 6]
        (lc_socket_new { ctx_id := 0, sock_id := 0, chan_id := 0, chan_list := [] } 3).2).workers
      = [6] :=
  ⟨(lc_socket_listen_iff_worker.2.1
      { ctx_id := 0, sock_id := 0, chan_id := 0, chan_list := [] } 3
      [socket_call.listen 5, socket_call.listen_cancel 0 0, socket_call.listen 6] 7
      (by decide)).1, by decide⟩

/-! ### Address hasher: invalid base address -/

/-- Counterexample for C13: with an absent (NULL) group name `lc_hashgroup` returns 0
for the base text `ff3e:`, which `inet_pton` rejects, and leaves `hashaddr`
untouched. -/
theorem lc_hashgroup_null_name_invalid_base :
    inet_pton "ff3e:" = none ∧
    lc_hashgroup Endian.little sha_ok "ff3e:" none "junk" 0 = (lc_code.success, "junk") := by
  decide

/-- C13 (amended): for every base address text that `inet_pton` rejects, every
non-absent group name, every flags word and every content of the output buffer,
`lc_hashgroup` leaves the output buffer as it was and returns
`LC_ERROR_HASH_INIT` if `SHA1_Init` fails, otherwise `LC_ERROR_HASH_UPDATE` if one
of the two `SHA1_Update` calls fails, otherwise `LC_ERROR_HASH_FINAL` if
`SHA1_Final` fails, and `LC_ERROR_INVALID_BASEADDR` when all four succeed; it
never returns 0.  With an absent (NULL) group name and the same base it returns
0 and leaves the output buffer as it was. -/
theorem lc_hashgroup_invalid_base (host : Endian) (sha : sha_returns) (baseaddr : String)
    (name : List Nat) (hashaddr : String) (flags : Nat)
    (hbase : inet_pton baseaddr = none) :
    lc_hashgroup host sha baseaddr (some name) hashaddr flags =
      ((if sha.SHA1_Init = 0 then lc_code.LC_ERROR_HASH_INIT
        else if sha.SHA1_Update_name = 0 then lc_code.LC_ERROR_HASH_UPDATE
        else if sha.SHA1_Update_flags = 0 then lc_code.LC_ERROR_HASH_UPDATE
        else if sha.SHA1_Final = 0 then lc_code.LC_ERROR_HASH_FINAL
        else lc_code.LC_ERROR_INVALID_BASEADDR), hashaddr) ∧
    (lc_hashgroup host sha baseaddr (some name) hashaddr flags).1 ≠ lc_code.success ∧
    (sha.SHA1_Init ≠ 0 → sha.SHA1_Update_name ≠ 0 → sha.SHA1_Update_flags ≠ 0 →
      sha.SHA1_Final ≠ 0 →
      lc_hashgroup host sha baseaddr (some name) hashaddr flags =
        (lc_code.LC_ERROR_INVALID_BASEADDR, hashaddr)) ∧
    lc_hashgroup host sha baseaddr none hashaddr flags = (lc_code.success, hashaddr) := by
  have hbin : hashgroup_binaddr host baseaddr name flags = none := by
    simp [hashgroup_binaddr, hbase]
  refine ⟨?_, ?_, ?_, rfl⟩
  · simp only [lc_hashgroup, hbin]
    split_ifs <;> rfl
  · simp only [lc_hashgroup, hbin]
    split_ifs <;> simp
  · intro h1 h2 h3 h4
    simp [lc_hashgroup, hbin, h1, h2, h3, h4]

/-- Witness for C13: the base text `ff3e:` with the name `hello`, the output
buffer holding `junk`, once with every SHA-1 step succeeding and once with
`SHA1_Final` failing. -/
theorem lc_hashgroup_invalid_base_witness :
    lc_hashgroup Endian.little sha_ok "ff3e:" (some (cstr "hello")) "junk" 0 =
      (lc_code.LC_ERROR_INVALID_BASEADDR, "junk") ∧
    lc_hashgroup Endian.little
      { SHA1_Init := 1, SHA1_Update_name := 1, SHA1_Update_flags := 1, SHA1_Final := 0 }
      "ff3e:" (some (cstr "hello")) "junk" 0 = (lc_code.LC_ERROR_HASH_FINAL, "junk") :=
  ⟨(lc_hashgroup_invalid_base Endian.little sha_ok "ff3e:" (cstr "hello") "junk" 0
      (by decide)).2.2.1 (by decide) (by decide) (by decide) (by decide),
   (lc_hashgroup_invalid_base Endian.little
      { SHA1_Init := 1, SHA1_Update_name := 1, SHA1_Update_flags := 1, SHA1_Final := 0 }
      "ff3e:" (cstr "hello") "junk" 0 (by decide)).1⟩

/-! ### Round trip of the address conversion -/


/-- One step of the digit printer of the core library. -/
theorem toDigitsCore_step (b f n : Nat) (ds : List Char) :
    Nat.toDigitsCore b (f + 1) n ds =
      if n / b = 0 then Nat.digitChar (n % b) :: ds
      else Nat.toDigitsCore b f (n / b) (Nat.digitChar (n % b) :: ds) := by
  simp [Nat.toDigitsCore]

/-- The hexadecimal text of a 16-bit group, digit by digit. -/
theorem hex_text_cases (w : Nat) (hw : w < 65536) :
    hex_text w =
      if w < 16 then [Nat.digitChar w]
      else if w < 256 then [Nat.digitChar (w / 16), Nat.digitChar (w % 16)]
      else if w < 4096 then
        [Nat.digitChar (w / 256), Nat.digitChar (w / 16 % 16), Nat.digitChar (w % 16)]
      else [Nat.digitChar (w / 4096), Nat.digitChar (w / 256 % 16),
            Nat.digitChar (w / 16 % 16), Nat.digitChar (w % 16)] := by
  unfold hex_text Nat.toDigits
  by_cases h1 : w < 16
  · rw [toDigitsCore_step, if_pos (by omega), if_pos h1, Nat.mod_eq_of_lt h1]
  · obtain ⟨f, hf⟩ : ∃ f, w + 1 = f + 4 := ⟨w - 3, by omega⟩
    rw [hf, if_neg h1]
    simp only [toDigitsCore_step, Nat.div_div_eq_div_mul, Nat.reduceMul]
    by_cases h2 : w < 256
    · rw [if_neg (by omega), if_pos (by omega), if_pos h2]
      have : w / 16 % 16 = w / 16 := Nat.mod_eq_of_lt (by omega)
      rw [this]
    · by_cases h3 : w < 4096
      · rw [if_neg (by omega), if_neg (by omega), if_pos (by omega), if_neg h2, if_pos h3]
        have : w / 256 % 16 = w / 256 := Nat.mod_eq_of_lt (by omega)
        rw [this]
      · rw [if_neg (by omega), if_neg (by omega), if_neg (by omega), if_pos (by omega),
          if_neg h2, if_neg h3]
        have : w / 4096 % 16 = w / 4096 := Nat.mod_eq_of_lt (by omega)
        rw [this]

/-- The printed digit of a value below 16 is read back as that value. -/
theorem hex_digit_value_digitChar (d : Nat) (hd : d < 16) :
    hex_digit_value (Nat.digitChar d) = some d := by
  interval_cases d <;> rfl

/-- The IPv6 scanner on a hexadecimal digit: the digit is shifted into the group. -/
theorem inet_pton6_loop_digit (c : Char) (d : Nat) (rest curtok : List Char) (s : Pton6State)
    (hc : hex_digit_value c = some d) (hseen : s.xdigits_seen ≠ 4)
    (hval : s.val * 16 + d ≤ 0xffff) :
    inet_pton6_loop (c :: rest) curtok s =
      inet_pton6_loop rest curtok
        { s with val := s.val * 16 + d, xdigits_seen := s.xdigits_seen + 1 } := by
  rw [inet_pton6_loop]
  simp only [hc, if_neg hseen]
  rw [if_neg (by omega)]

/-- The text of a group is never empty. -/
theorem hex_text_ne_nil (w : Nat) (hw : w < 65536) : hex_text w ≠ [] := by
  rw [hex_text_cases w hw]
  split_ifs <;> simp

/-- The text of a group has at most 4 characters. -/
theorem hex_text_length (w : Nat) (hw : w < 65536) :
    0 < (hex_text w).length ∧ (hex_text w).length ≤ 4 := by
  rw [hex_text_cases w hw]
  split_ifs <;> simp

/-- The IPv6 scanner on the text of a group: the group value is read back. -/
theorem inet_pton6_loop_hex (w : Nat) (hw : w < 65536) (rest curtok : List Char)
    (tp : List Nat) (cp : Option Nat) :
    inet_pton6_loop (hex_text w ++ rest) curtok
        { tp := tp, colonp := cp, val := 0, xdigits_seen := 0 } =
      inet_pton6_loop rest curtok
        { tp := tp, colonp := cp, val := w, xdigits_seen := (hex_text w).length } := by
  rw [hex_text_cases w hw]
  by_cases h1 : w < 16
  · simp only [if_pos h1, List.cons_append, List.nil_append, List.length_cons, List.length_nil]
    rw [inet_pton6_loop_digit _ w _ _ _ (hex_digit_value_digitChar w h1) (by simp) (by simp; omega)]
    simp
  · by_cases h2 : w < 256
    · simp only [if_neg h1, if_pos h2, List.cons_append, List.nil_append, List.length_cons,
        List.length_nil]
      rw [inet_pton6_loop_digit _ (w / 16) _ _ _ (hex_digit_value_digitChar _ (by omega))
          (by simp) (by simp; omega),
        inet_pton6_loop_digit _ (w % 16) _ _ _ (hex_digit_value_digitChar _ (by omega))
          (by simp) (by simp; omega)]
      congr 1
      simp only [Pton6State.mk.injEq, true_and, and_true]
      omega
    · by_cases h3 : w < 4096
      · simp only [if_neg h1, if_neg h2, if_pos h3, List.cons_append, List.nil_append,
          List.length_cons, List.length_nil]
        rw [inet_pton6_loop_digit _ (w / 256) _ _ _ (hex_digit_value_digitChar _ (by omega))
            (by simp) (by simp; omega),
          inet_pton6_loop_digit _ (w / 16 % 16) _ _ _ (hex_digit_value_digitChar _ (by omega))
            (by simp) (by simp; omega),
          inet_pton6_loop_digit _ (w % 16) _ _ _ (hex_digit_value_digitChar _ (by omega))
            (by simp) (by simp; omega)]
        congr 1
        simp only [Pton6State.mk.injEq, true_and, and_true]
        omega
      · simp only [if_neg h1, if_neg h2, if_neg h3, List.cons_append, List.nil_append,
          List.length_cons, List.length_nil]
        rw [inet_pton6_loop_digit _ (w / 4096) _ _ _ (hex_digit_value_digitChar _ (by omega))
            (by simp) (by simp; omega),
          inet_pton6_loop_digit _ (w / 256 % 16) _ _ _ (hex_digit_value_digitChar _ (by omega))
            (by simp) (by simp; omega),
          inet_pton6_loop_digit _ (w / 16 % 16) _ _ _ (hex_digit_value_digitChar _ (by omega))
            (by simp) (by simp; omega),
          inet_pton6_loop_digit _ (w % 16) _ _ _ (hex_digit_value_digitChar _ (by omega))
            (by simp) (by simp; omega)]
        congr 1
        simp only [Pton6State.mk.injEq, true_and, and_true]
        omega

/-- The IPv6 scanner on the colon that ends a group: the group is stored. -/
theorem inet_pton6_loop_colon (rest curtok : List Char) (tp : List Nat) (cp : Option Nat)
    (w k : Nat) (hk : k ≠ 0) (hrest : rest ≠ []) (htp : tp.length + 2 ≤ 16) :
    inet_pton6_loop (':' :: rest) curtok { tp := tp, colonp := cp, val := w, xdigits_seen := k } =
      inet_pton6_loop rest rest
        { tp := tp ++ [w / 256 % 256, w % 256], colonp := cp, val := 0, xdigits_seen := 0 } := by
  rw [inet_pton6_loop]
  have h : hex_digit_value ':' = none := by decide
  simp only [h, if_true, if_neg hk, if_neg hrest]
  rw [if_neg (by omega)]

/-- The IPv6 scanner on the second colon of a gap: the position of the gap is
recorded. -/
theorem inet_pton6_loop_gap (rest curtok : List Char) (tp : List Nat) :
    inet_pton6_loop (':' :: rest) curtok
        { tp := tp, colonp := none, val := 0, xdigits_seen := 0 } =
      inet_pton6_loop rest rest
        { tp := tp, colonp := some tp.length, val := 0, xdigits_seen := 0 } := by
  rw [inet_pton6_loop]
  have h : hex_digit_value ':' = none := by decide
  simp [h]

/-- Two bytes per group. -/
theorem group_bytes_length (ws : List Nat) : (group_bytes ws).length = 2 * ws.length := by
  induction ws with
  | nil => rfl
  | cons w ws ih => simp only [group_bytes, List.length_cons, ih]; omega

/-- Bytes of two runs of groups. -/
theorem group_bytes_append (xs ys : List Nat) :
    group_bytes (xs ++ ys) = group_bytes xs ++ group_bytes ys := by
  induction xs with
  | nil => rfl
  | cons w ws ih =>
    show w / 256 % 256 :: w % 256 :: group_bytes (ws ++ ys) = _
    rw [ih]
    rfl

/-- The IPv6 scanner on a run of colon-terminated groups that is followed by more
text: every group is stored. -/
theorem inet_pton6_loop_groups (ws : List Nat) (hws : ∀ w ∈ ws, w < 65536) :
    ∀ (rest curtok : List Char) (tp : List Nat) (cp : Option Nat), rest ≠ [] →
      tp.length + 2 * ws.length ≤ 16 →
      ∃ ct, inet_pton6_loop (groups_text ws ++ rest) curtok
          { tp := tp, colonp := cp, val := 0, xdigits_seen := 0 } =
        inet_pton6_loop rest ct
          { tp := tp ++ group_bytes ws, colonp := cp, val := 0, xdigits_seen := 0 } := by
  induction ws with
  | nil =>
    intro rest curtok tp cp _ _
    exact ⟨curtok, by simp [groups_text, group_bytes]⟩
  | cons w ws ih =>
    intro rest curtok tp cp hrest hlen
    have hw : w < 65536 := hws w (List.mem_cons_self _ _)
    simp only [List.length_cons] at hlen
    obtain ⟨ct, hct⟩ := ih (fun x hx => hws x (List.mem_cons_of_mem _ hx)) rest
      (groups_text ws ++ rest) (tp ++ [w / 256 % 256, w % 256]) cp hrest
      (by simp only [List.length_append, List.length_cons, List.length_nil]; omega)
    refine ⟨ct, ?_⟩
    simp only [groups_text, List.append_assoc, List.cons_append]
    rw [inet_pton6_loop_hex w hw,
      inet_pton6_loop_colon _ _ _ _ _ _ (by have := (hex_text_length w hw).1; omega)
        (by simp [hrest]) (by omega), hct]
    simp [group_bytes]

/-- The IPv6 scanner on the colon-separated groups that end the text: all but
the last group are stored, the last one is pending. -/
theorem inet_pton6_loop_last (ws : List Nat) (hws : ∀ w ∈ ws, w < 65536) :
    ∀ (curtok : List Char) (tp : List Nat) (cp : Option Nat),
      tp.length + 2 * ws.length ≤ 16 →
      ∃ s, inet_pton6_loop (last_text ws) curtok
          { tp := tp, colonp := cp, val := 0, xdigits_seen := 0 } = some s ∧
        s.colonp = cp ∧
        (if s.xdigits_seen ≠ 0 then s.tp ++ [s.val / 256 % 256, s.val % 256] else s.tp)
          = tp ++ group_bytes ws := by
  induction ws with
  | nil =>
    intro curtok tp cp _
    exact ⟨_, rfl, rfl, by simp [group_bytes]⟩
  | cons w ws ih =>
    intro curtok tp cp hlen
    have hw : w < 65536 := hws w (List.mem_cons_self _ _)
    simp only [List.length_cons] at hlen
    cases ws with
    | nil =>
      refine ⟨{ tp := tp, colonp := cp, val := w, xdigits_seen := (hex_text w).length }, ?_, rfl, ?_⟩
      · have h := inet_pton6_loop_hex w hw [] curtok tp cp
        rw [List.append_nil] at h
        rw [last_text, h, inet_pton6_loop]
      · have := (hex_text_length w hw).1
        simp only [ne_eq, group_bytes]
        rw [if_pos (by omega)]
    | cons w2 ws =>
      obtain ⟨s, hs, hcp, htp⟩ := ih (fun x hx => hws x (List.mem_cons_of_mem _ hx))
        (last_text (w2 :: ws)) (tp ++ [w / 256 % 256, w % 256]) cp
        (by simp only [List.length_append, List.length_cons, List.length_nil] at hlen ⊢; omega)
      refine ⟨s, ?_, hcp, ?_⟩
      · have hne : last_text (w2 :: ws) ≠ [] := by
          have h2 := hex_text_ne_nil w2 (hws w2 (by simp))
          cases ws with
          | nil => simpa [last_text] using h2
          | cons w3 ws => simp [last_text, h2]
        rw [last_text, inet_pton6_loop_hex w hw,
          inet_pton6_loop_colon _ _ _ _ _ _ (by have := (hex_text_length w hw).1; omega)
            hne (by omega), hs]
        intro h
        exact absurd h (List.cons_ne_nil _ _)
      · rw [htp]
        simp [group_bytes]

/-- A text that does not begin with a colon is scanned from its first character. -/
theorem inet_pton6_start_of_ne_colon (c : Char) (cs : List Char) (h : c ≠ ':') :
    inet_pton6_start (c :: cs) = some (c :: cs) := by
  unfold inet_pton6_start
  split
  · rename_i heq
    simp only [List.cons.injEq] at heq
    exact absurd heq.1 h
  · rename_i heq
    simp only [List.cons.injEq] at heq
    exact absurd heq.1 h
  · rfl

/-- The text of a group begins with a hexadecimal digit, not with a colon. -/
theorem hex_text_head (w : Nat) (hw : w < 65536) :
    ∃ c cs, hex_text w = c :: cs ∧ c ≠ ':' := by
  have key : ∀ d, d < 16 → Nat.digitChar d ≠ ':' := by
    intro d hd h
    have h1 := hex_digit_value_digitChar d hd
    have h2 : hex_digit_value ':' = none := by decide
    rw [h, h2] at h1
    cases h1
  rw [hex_text_cases w hw]
  split_ifs
  · exact ⟨_, _, rfl, key _ (by omega)⟩
  · exact ⟨_, _, rfl, key _ (by omega)⟩
  · exact ⟨_, _, rfl, key _ (by omega)⟩
  · exact ⟨_, _, rfl, key _ (by omega)⟩

/-- The last step of the IPv6 parser on a state whose stored and pending bytes are
`bytes`: without a gap they must be 16, with a gap at `c` the gap is filled with
zeros. -/
theorem inet_pton6_finish_eq (s : Pton6State) (bytes : List Nat)
    (h : (if s.xdigits_seen ≠ 0 then s.tp ++ [s.val / 256 % 256, s.val % 256] else s.tp)
      = bytes) :
    inet_pton6_finish s =
      (if s.colonp.isSome ∧ bytes.length ≥ 16 then none
       else if (match s.colonp with
          | some c => bytes.take c ++ List.replicate (16 - bytes.length) 0 ++ bytes.drop c
          | none => bytes).length = 16
        then some (match s.colonp with
          | some c => bytes.take c ++ List.replicate (16 - bytes.length) 0 ++ bytes.drop c
          | none => bytes)
        else none) := by
  subst h
  rfl

/-- Parsing eight colon-separated groups yields their 16 bytes. -/
theorem inet_pton_full (ws : List Nat) (hlen : ws.length = 8) (hws : ∀ w ∈ ws, w < 65536) :
    inet_pton (String.mk (last_text ws)) = some (group_bytes ws) := by
  obtain ⟨w, ws', rfl⟩ : ∃ w ws', ws = w :: ws' := by
    cases ws with
    | nil => simp at hlen
    | cons w ws' => exact ⟨w, ws', rfl⟩
  obtain ⟨c, cs, hc, hne⟩ := hex_text_head w (hws w (List.mem_cons_self _ _))
  have htext : ∃ r, last_text (w :: ws') = c :: r := by
    cases ws' with
    | nil => exact ⟨cs, by rw [last_text, hc]⟩
    | cons w2 ws2 =>
      refine ⟨cs ++ ':' :: last_text (w2 :: ws2), ?_⟩
      show hex_text w ++ ':' :: last_text (w2 :: ws2) = _
      rw [hc]
      rfl
  obtain ⟨r, hr⟩ := htext
  obtain ⟨s, hs, hcp, htp⟩ := inet_pton6_loop_last (w :: ws') hws (last_text (w :: ws')) []
    none (by rw [hlen]; decide)
  have hstart : inet_pton6_start (String.mk (last_text (w :: ws'))).toList
      = some (last_text (w :: ws')) := by
    show inet_pton6_start (last_text (w :: ws')) = _
    rw [hr]
    exact inet_pton6_start_of_ne_colon c r hne
  unfold inet_pton
  rw [hstart]
  simp only [hs]
  rw [inet_pton6_finish_eq s _ htp, hcp]
  simp [group_bytes_length, hlen]

/-- Parsing groups, a gap, and further groups yields the bytes of the groups with
the gap filled by zeros. -/
theorem inet_pton_run (pre post : List Nat) (hpre : pre ≠ [])
    (hws : ∀ w ∈ pre ++ post, w < 65536) (hlen : pre.length + post.length ≤ 6) :
    inet_pton (String.mk (groups_text pre ++ ':' :: last_text post)) =
      some (group_bytes pre ++ List.replicate (16 - 2 * (pre.length + post.length)) 0
        ++ group_bytes post) := by
  obtain ⟨w, pre', rfl⟩ : ∃ w pre', pre = w :: pre' := by
    cases pre with
    | nil => exact absurd rfl hpre
    | cons w pre' => exact ⟨w, pre', rfl⟩
  have hwpre : ∀ x ∈ w :: pre', x < 65536 := fun x hx => hws x (List.mem_append_left _ hx)
  have hwpost : ∀ x ∈ post, x < 65536 := fun x hx => hws x (List.mem_append_right _ hx)
  obtain ⟨c, cs, hc, hne⟩ := hex_text_head w (hwpre w (List.mem_cons_self _ _))
  have hr : groups_text (w :: pre') ++ ':' :: last_text post
      = c :: (cs ++ ':' :: groups_text pre' ++ ':' :: last_text post) := by
    rw [groups_text, hc]
    simp
  have hstart : inet_pton6_start
      (String.mk (groups_text (w :: pre') ++ ':' :: last_text post)).toList
      = some (groups_text (w :: pre') ++ ':' :: last_text post) := by
    show inet_pton6_start (groups_text (w :: pre') ++ ':' :: last_text post) = _
    rw [hr]
    exact inet_pton6_start_of_ne_colon c _ hne
  obtain ⟨ct, hct⟩ := inet_pton6_loop_groups (w :: pre') hwpre (':' :: last_text post)
    (groups_text (w :: pre') ++ ':' :: last_text post) [] none (by simp)
    (by simp only [List.length_nil, List.length_cons] at hlen ⊢; omega)
  obtain ⟨s, hs, hcp, htp⟩ := inet_pton6_loop_last post hwpost (last_text post)
    ([] ++ group_bytes (w :: pre')) (some ([] ++ group_bytes (w :: pre')).length)
    (by simp only [List.nil_append, group_bytes_length, List.length_cons] at hlen ⊢; omega)
  unfold inet_pton
  rw [hstart]
  simp only [hct, inet_pton6_loop_gap, hs]
  rw [inet_pton6_finish_eq s _ htp, hcp]
  have hl : ([] ++ group_bytes (w :: pre') ++ group_bytes post).length
      = 2 * ((w :: pre').length + post.length) := by
    simp only [List.nil_append, List.length_append, group_bytes_length]
    omega
  have hlt : ¬ (([] ++ group_bytes (w :: pre') ++ group_bytes post).length ≥ 16) := by
    rw [hl]
    simp only [List.length_cons] at hlen ⊢
    omega
  simp only [Option.isSome_some, true_and, hlt, if_false]
  rw [hl]
  simp only [List.nil_append, List.take_left', List.drop_left']
  rw [if_pos]
  simp only [List.length_append, List.length_replicate, group_bytes_length]
  simp only [List.length_cons] at hlen ⊢
  omega

/-- Head and tail of a list seen through `drop`. -/
theorem drop_eq_cons (all : List Nat) (i w : Nat) (ws : List Nat) (h : all.drop i = w :: ws) :
    i < all.length ∧ all.getD i 1 = w ∧ all.drop (i + 1) = ws := by
  have hlt : i < all.length := by
    by_contra hge
    rw [List.drop_of_length_le (by omega)] at h
    cases h
  refine ⟨hlt, ?_, ?_⟩
  · have h2 := List.drop_eq_getElem_cons hlt
    rw [h] at h2
    simp only [List.cons.injEq] at h2
    rw [List.getD_eq_getElem?_getD, List.getElem?_eq_getElem hlt]
    exact h2.1.symm
  · have h2 := List.drop_eq_getElem_cons hlt
    rw [h] at h2
    simp only [List.cons.injEq] at h2
    exact h2.2.symm

/-- The scan at the end of the groups: the longer of the open run and the best run so far. -/
theorem zero_run_scan_nil (i : Nat) (best cur : Option (Nat × Nat)) :
    zero_run_scan [] i best cur =
      (match cur, best with
       | some c, some b => if c.2 > b.2 then some c else some b
       | some c, none => some c
       | none, b => b) := rfl

/-- The scan at a group: a zero group opens or extends a run, any other group
closes the open run. -/
theorem zero_run_scan_cons (w : Nat) (ws : List Nat) (i : Nat) (best cur : Option (Nat × Nat)) :
    zero_run_scan (w :: ws) i best cur =
      (if w = 0 then
        match cur with
        | none => zero_run_scan ws (i + 1) best (some (i, 1))
        | some c => zero_run_scan ws (i + 1) best (some (c.1, c.2 + 1))
      else
        match cur, best with
        | some c, some b => zero_run_scan ws (i + 1) (if c.2 > b.2 then some c else some b) none
        | some c, none => zero_run_scan ws (i + 1) (some c) none
        | none, b => zero_run_scan ws (i + 1) b none) := rfl

/-- The run found by the scan lies inside the list and consists of zero groups. -/
theorem zero_run_scan_spec (all : List Nat) :
    ∀ (ws : List Nat) (i : Nat) (best cur : Option (Nat × Nat)) (r : Nat × Nat),
      all.drop i = ws →
      (∀ p, best = some p → 1 ≤ p.2 ∧ p.1 + p.2 ≤ all.length ∧
        ∀ j, p.1 ≤ j → j < p.1 + p.2 → all.getD j 1 = 0) →
      (∀ p, cur = some p → 1 ≤ p.2 ∧ p.1 + p.2 = i ∧ i ≤ all.length ∧
        ∀ j, p.1 ≤ j → j < p.1 + p.2 → all.getD j 1 = 0) →
      zero_run_scan ws i best cur = some r →
      1 ≤ r.2 ∧ r.1 + r.2 ≤ all.length ∧ ∀ j, r.1 ≤ j → j < r.1 + r.2 → all.getD j 1 = 0 := by
  intro ws
  induction ws with
  | nil =>
    intro i best cur r _ hbest hcur hr
    rw [zero_run_scan_nil] at hr
    cases cur with
    | none =>
      simp only at hr
      exact hbest r hr
    | some c =>
      obtain ⟨c1, c2, c3, c4⟩ := hcur c rfl
      cases best with
      | none =>
        simp only [Option.some.injEq] at hr
        rw [← hr]
        exact ⟨c1, by omega, c4⟩
      | some b =>
        simp only at hr
        split at hr
        · simp only [Option.some.injEq] at hr
          rw [← hr]
          exact ⟨c1, by omega, c4⟩
        · simp only [Option.some.injEq] at hr
          rw [← hr]
          exact hbest b rfl
  | cons w ws ih =>
    intro i best cur r hdrop hbest hcur hr
    obtain ⟨hlt, hget, hdrop'⟩ := drop_eq_cons all i w ws hdrop
    rw [zero_run_scan_cons] at hr
    by_cases hw : w = 0
    · simp only [hw, if_true] at hr
      cases cur with
      | none =>
        simp only at hr
        refine ih (i + 1) best (some (i, 1)) r hdrop' hbest ?_ hr
        intro p hp
        simp only [Option.some.injEq] at hp
        rw [← hp]
        refine ⟨le_refl _, rfl, by omega, ?_⟩
        intro j h1 h2
        have : j = i := by simp only at h1 h2; omega
        rw [this, hget, hw]
      | some c =>
        obtain ⟨c1, c2, c3, c4⟩ := hcur c rfl
        simp only at hr
        refine ih (i + 1) best (some (c.1, c.2 + 1)) r hdrop' hbest ?_ hr
        intro p hp
        simp only [Option.some.injEq] at hp
        rw [← hp]
        refine ⟨by simp, by simp only; omega, by omega, ?_⟩
        intro j h1 h2
        simp only at h1 h2
        by_cases hj : j = i
        · rw [hj, hget, hw]
        · exact c4 j h1 (by omega)
    · simp only [hw, if_false] at hr
      cases cur with
      | none =>
        simp only at hr
        exact ih (i + 1) best none r hdrop' hbest (by intro p hp; cases hp) hr
      | some c =>
        obtain ⟨c1, c2, c3, c4⟩ := hcur c rfl
        cases best with
        | none =>
          simp only at hr
          refine ih (i + 1) (some c) none r hdrop' ?_ (by intro p hp; cases hp) hr
          intro p hp
          simp only [Option.some.injEq] at hp
          rw [← hp]
          exact ⟨c1, by omega, c4⟩
        | some b =>
          simp only at hr
          refine ih (i + 1) _ none r hdrop' ?_ (by intro p hp; cases hp) hr
          intro p hp
          split at hp
          · simp only [Option.some.injEq] at hp
            rw [← hp]
            exact ⟨c1, by omega, c4⟩
          · simp only [Option.some.injEq] at hp
            rw [← hp]
            exact hbest b rfl

/-- The run that `inet_ntop` prints as a gap: at least two groups, inside the
address, all zero. -/
theorem zero_run_spec (words : List Nat) (b l : Nat) (h : zero_run words = some (b, l)) :
    2 ≤ l ∧ b + l ≤ words.length ∧ ∀ j, b ≤ j → j < b + l → words.getD j 1 = 0 := by
  unfold zero_run at h
  split at h
  · rename_i r hr
    split at h
    · cases h
    · rename_i hl
      simp only [Option.some.injEq] at h
      have hs := zero_run_scan_spec words words 0 none none r rfl (by intro p hp; cases hp)
        (by intro p hp; cases hp) hr
      rw [h] at hs hl
      simp only at hs hl
      exact ⟨by omega, hs.2.1, hs.2.2⟩
  · cases h

/-- The formatting loop without a gap: every group is printed, colons in between. -/
theorem inet_ntop6_loop_none (src words : List Nat) (i : Nat) (is : List Nat) :
    inet_ntop6_loop src words none (i :: is) =
      (if i ≠ 0 then [':'] else []) ++ hex_text (words.getD i 0)
        ++ inet_ntop6_loop src words none is := rfl

/-- The formatting loop inside the gap: one colon at its first group. -/
theorem inet_ntop6_loop_in_run (src words : List Nat) (b l i : Nat) (is : List Nat)
    (h : b ≤ i ∧ i < b + l) :
    inet_ntop6_loop src words (some (b, l)) (i :: is) =
      (if b = i then [':'] else []) ++ inet_ntop6_loop src words (some (b, l)) is := by
  have hd : decide (b ≤ i ∧ i < b + l) = true := decide_eq_true h
  show (if (decide (b ≤ i ∧ i < b + l)) = true then
      (if (Option.map Prod.fst (some (b, l))) = some i then [':'] else [])
        ++ inet_ntop6_loop src words (some (b, l)) is
    else _) = _
  rw [if_pos hd]
  by_cases hb : b = i
  · simp [hb]
  · simp [hb]

/-- The formatting loop outside the gap, for a gap that does not start the
address: the group is printed after a colon. -/
theorem inet_ntop6_loop_out_run (src words : List Nat) (b l i : Nat) (is : List Nat)
    (h : ¬ (b ≤ i ∧ i < b + l)) (hb : b ≠ 0) :
    inet_ntop6_loop src words (some (b, l)) (i :: is) =
      (if i ≠ 0 then [':'] else []) ++ hex_text (words.getD i 0)
        ++ inet_ntop6_loop src words (some (b, l)) is := by
  have hd : ¬ (decide (b ≤ i ∧ i < b + l) = true) := by simpa using h
  have hv : ¬ (decide (i = 6 ∧ b = 0 ∧ (l = 6 ∨ (l = 5 ∧ words.getD 5 0 = 0xffff))) = true) := by
    simp [hb]
  show (if (decide (b ≤ i ∧ i < b + l)) = true then _
    else if (decide (i = 6 ∧ b = 0 ∧ (l = 6 ∨ (l = 5 ∧ words.getD 5 0 = 0xffff)))) = true
      then _
      else (if i ≠ 0 then [':'] else []) ++ hex_text (words.getD i 0)
        ++ inet_ntop6_loop src words (some (b, l)) is) = _
  rw [if_neg hd, if_neg hv]

/-- The formatting loop at the end of the groups. -/
theorem inet_ntop6_loop_nil (src words : List Nat) (best : Option (Nat × Nat)) :
    inet_ntop6_loop src words best [] = [] := rfl

/-- The canonical text of eight groups, the first of which is not zero, parses
back to the bytes of the groups. -/
theorem inet_pton_ntop_words (src : List Nat) (w0 w1 w2 w3 w4 w5 w6 w7 : Nat)
    (hw : ∀ w ∈ [w0, w1, w2, w3, w4, w5, w6, w7], w < 65536) (h0 : w0 ≠ 0) :
    inet_pton (String.mk
      (inet_ntop6_loop src [w0, w1, w2, w3, w4, w5, w6, w7]
          (zero_run [w0, w1, w2, w3, w4, w5, w6, w7]) (List.range 8)
        ++ (match zero_run [w0, w1, w2, w3, w4, w5, w6, w7] with
            | some b => if b.1 + b.2 = 8 then [':'] else []
            | none => []))) =
      some (group_bytes [w0, w1, w2, w3, w4, w5, w6, w7]) := by
  have hrange : List.range 8 = [0, 1, 2, 3, 4, 5, 6, 7] := rfl
  cases hz : zero_run [w0, w1, w2, w3, w4, w5, w6, w7] with
  | none =>
    have htext : inet_ntop6_loop src [w0, w1, w2, w3, w4, w5, w6, w7] none (List.range 8) ++ []
        = last_text [w0, w1, w2, w3, w4, w5, w6, w7] := by
      rw [hrange]
      simp [inet_ntop6_loop_none, inet_ntop6_loop_nil, last_text]
    simp only []
    rw [htext]
    exact inet_pton_full _ rfl hw
  | some p =>
    obtain ⟨b, l⟩ := p
    obtain ⟨hl2, hbl, hzero⟩ := zero_run_spec _ b l hz
    simp only [List.length_cons, List.length_nil] at hbl
    have hb : b ≠ 0 := by
      intro hb0
      have := hzero 0 (by omega) (by omega)
      exact h0 (by simpa using this)
    have e1 : b ≤ 1 → 1 < b + l → w1 = 0 := fun h1 h2 => by simpa using hzero 1 h1 h2
    have e2 : b ≤ 2 → 2 < b + l → w2 = 0 := fun h1 h2 => by simpa using hzero 2 h1 h2
    have e3 : b ≤ 3 → 3 < b + l → w3 = 0 := fun h1 h2 => by simpa using hzero 3 h1 h2
    have e4 : b ≤ 4 → 4 < b + l → w4 = 0 := fun h1 h2 => by simpa using hzero 4 h1 h2
    have e5 : b ≤ 5 → 5 < b + l → w5 = 0 := fun h1 h2 => by simpa using hzero 5 h1 h2
    have e6 : b ≤ 6 → 6 < b + l → w6 = 0 := fun h1 h2 => by simpa using hzero 6 h1 h2
    have e7 : b ≤ 7 → 7 < b + l → w7 = 0 := fun h1 h2 => by simpa using hzero 7 h1 h2
    clear hzero hz
    have htext : inet_ntop6_loop src [w0, w1, w2, w3, w4, w5, w6, w7] (some (b, l)) (List.range 8)
          ++ (if b + l = 8 then [':'] else [])
        = groups_text ([w0, w1, w2, w3, w4, w5, w6, w7].take b) ++
            ':' :: last_text ([w0, w1, w2, w3, w4, w5, w6, w7].drop (b + l)) := by
      rw [hrange]
      have hb6 : b ≤ 6 := by omega
      have hl7 : l ≤ 7 := by omega
      interval_cases b <;> interval_cases l <;>
        first
        | (exfalso; omega)
        | simp [inet_ntop6_loop_in_run, inet_ntop6_loop_out_run, inet_ntop6_loop_nil,
            groups_text, last_text]
    simp only []
    rw [htext, inet_pton_run _ _ (by
        have hb6 : b ≤ 6 := by omega
        interval_cases b <;> simp at hb ⊢)
      (by
        intro w hwm
        rcases List.mem_append.mp hwm with h | h
        · exact hw w (List.mem_of_mem_take h)
        · exact hw w (List.mem_of_mem_drop h))
      (by simp only [List.length_take, List.length_drop, List.length_cons, List.length_nil]; omega)]
    congr 1
    have hb6 : b ≤ 6 := by omega
    have hl7 : l ≤ 7 := by omega
    interval_cases b <;> interval_cases l <;>
      first
      | (exfalso; omega)
      | (simp only [Nat.le_refl, Nat.reduceLeDiff, Nat.reduceAdd, Nat.reduceLT, Nat.lt_irrefl,
          forall_true_left, forall_false, not_lt, not_le, Nat.lt_add_one, true_implies,
          false_implies, implies_true] at e1 e2 e3 e4 e5 e6 e7
         subst_vars
         simp [group_bytes])

/-- Round trip of the address conversion: the text `inet_ntop` prints for a
16-byte address whose first group is not zero is parsed back by `inet_pton` to
the same 16 bytes. -/
theorem inet_pton_ntop (a : List Nat) (hlen : a.length = 16) (hbytes : ∀ x ∈ a, x < 256)
    (h0 : a.getD 0 0 ≠ 0 ∨ a.getD 1 0 ≠ 0) :
    ∃ t, inet_ntop a = some t ∧ inet_pton t = some a := by
  obtain ⟨a0, a1, a2, a3, a4, a5, a6, a7, a8, a9, a10, a11, a12, a13, a14, a15, rfl⟩ :=
    length_sixteen a hlen
  have b0 : a0 < 256 := hbytes a0 (by simp)
  have b1 : a1 < 256 := hbytes a1 (by simp)
  have b2 : a2 < 256 := hbytes a2 (by simp)
  have b3 : a3 < 256 := hbytes a3 (by simp)
  have b4 : a4 < 256 := hbytes a4 (by simp)
  have b5 : a5 < 256 := hbytes a5 (by simp)
  have b6 : a6 < 256 := hbytes a6 (by simp)
  have b7 : a7 < 256 := hbytes a7 (by simp)
  have b8 : a8 < 256 := hbytes a8 (by simp)
  have b9 : a9 < 256 := hbytes a9 (by simp)
  have b10 : a10 < 256 := hbytes a10 (by simp)
  have b11 : a11 < 256 := hbytes a11 (by simp)
  have b12 : a12 < 256 := hbytes a12 (by simp)
  have b13 : a13 < 256 := hbytes a13 (by simp)
  have b14 : a14 < 256 := hbytes a14 (by simp)
  have b15 : a15 < 256 := hbytes a15 (by simp)
  simp only [List.getD_cons_zero, List.getD_cons_succ] at h0
  refine ⟨_, rfl, ?_⟩
  have key := inet_pton_ntop_words
    [a0, a1, a2, a3, a4, a5, a6, a7, a8, a9, a10, a11, a12, a13, a14, a15]
    (a0 % 256 * 256 + a1 % 256) (a2 % 256 * 256 + a3 % 256) (a4 % 256 * 256 + a5 % 256)
    (a6 % 256 * 256 + a7 % 256) (a8 % 256 * 256 + a9 % 256) (a10 % 256 * 256 + a11 % 256)
    (a12 % 256 * 256 + a13 % 256) (a14 % 256 * 256 + a15 % 256)
    (by
      intro w hwm
      simp only [List.mem_cons, List.mem_singleton, List.not_mem_nil, or_false] at hwm
      rcases hwm with h | h | h | h | h | h | h | h <;> omega)
    (by omega)
  have hg : group_bytes [a0 % 256 * 256 + a1 % 256, a2 % 256 * 256 + a3 % 256,
      a4 % 256 * 256 + a5 % 256, a6 % 256 * 256 + a7 % 256, a8 % 256 * 256 + a9 % 256,
      a10 % 256 * 256 + a11 % 256, a12 % 256 * 256 + a13 % 256, a14 % 256 * 256 + a15 % 256]
      = [a0, a1, a2, a3, a4, a5, a6, a7, a8, a9, a10, a11, a12, a13, a14, a15] := by
    simp only [group_bytes]
    refine congrArg₂ _ (by omega) (congrArg₂ _ (by omega) (congrArg₂ _ (by omega)
      (congrArg₂ _ (by omega) (congrArg₂ _ (by omega) (congrArg₂ _ (by omega)
      (congrArg₂ _ (by omega) (congrArg₂ _ (by omega) (congrArg₂ _ (by omega)
      (congrArg₂ _ (by omega) (congrArg₂ _ (by omega) (congrArg₂ _ (by omega)
      (congrArg₂ _ (by omega) (congrArg₂ _ (by omega) (congrArg₂ _ (by omega)
      (congrArg₂ _ (by omega) rfl)))))))))))))))
  rw [hg] at key
  exact key

/-! ### Channel lookup by address -/

/-- Every byte of a SHA-1 digest is below 256. -/
theorem SHA1_bytes (msg : List Nat) : ∀ x ∈ SHA1 msg, x < 256 := by
  intro x hx
  simp only [SHA1, be32, List.cons_append, List.nil_append, List.mem_cons, List.mem_singleton,
    List.not_mem_nil, or_false] at hx
  rcases hx with h | h | h | h | h | h | h | h | h | h | h | h | h | h | h | h | h | h | h | h <;>
    (rw [h]; exact Nat.mod_lt _ (by decide))

/-- Reading a digest byte, with 0 for an index beyond the digest. -/
theorem SHA1_getD_lt (msg : List Nat) (i : Nat) : (SHA1 msg).getD i 0 < 256 := by
  rw [List.getD_eq_getElem?_getD]
  cases h : (SHA1 msg)[i]? with
  | none => simp
  | some x =>
    have := SHA1_bytes msg x (List.getElem?_mem h)
    simpa using this

/-- The group address hashed from the default base: 16 bytes, beginning `ff 3e`,
whose text `inet_pton` parses back to the same bytes. -/
theorem hashgroup_default_round_trip (host : Endian) (uri : List Nat) (flags : Nat) :
    ∃ a t, hashgroup_binaddr host DEFAULT_ADDR uri flags = some a ∧
      inet_ntop a = some t ∧ inet_pton t = some a := by
  have hbin : hashgroup_binaddr host DEFAULT_ADDR uri flags =
      some (hashgroup_xor [0xff, 0x3e, 0, 0, 0, 0, 0, 0, 0, 0, 0, 0, 0, 0, 0, 0]
        (SHA1 (uri ++ bytes_of_u32 host flags))) := by
    simp only [hashgroup_binaddr, DEFAULT_ADDR, inet_pton_default_addr]
  obtain ⟨t, ht, hp⟩ := inet_pton_ntop
    (hashgroup_xor [0xff, 0x3e, 0, 0, 0, 0, 0, 0, 0, 0, 0, 0, 0, 0, 0, 0]
      (SHA1 (uri ++ bytes_of_u32 host flags)))
    (by rw [hashgroup_xor_length]; rfl)
    (by
      rw [hashgroup_xor_explicit]
      intro x hx
      simp only [List.mem_cons, List.mem_singleton, List.not_mem_nil, or_false,
        Nat.zero_xor] at hx
      rcases hx with h | h | h | h | h | h | h | h | h | h | h | h | h | h | h | h
      · omega
      · omega
      all_goals (rw [h]; exact SHA1_getD_lt _ _))
    (by
      rw [hashgroup_xor_explicit]
      left
      simp)
  exact ⟨_, t, hbin, ht, hp⟩

/-- Whenever `lc_hashgroup` succeeds on the default base with flags 0, it writes
the text `channel_group_text` names, whatever the buffer held before. -/
theorem lc_hashgroup_default_text (host : Endian) (sha : sha_returns) (uri : List Nat)
    (stack t : String)
    (h : lc_hashgroup host sha DEFAULT_ADDR (some uri) stack 0 = (lc_code.success, t)) :
    t = channel_group_text host uri ∧
    ∃ a, inet_ntop a = some t ∧ inet_pton t = some a := by
  obtain ⟨a, t', ha, ht', hp⟩ := hashgroup_default_round_trip host uri 0
  obtain ⟨base, addr, _, haddr, _, hnt⟩ := lc_hashgroup_success host sha DEFAULT_ADDR uri stack 0 t h
  rw [ha] at haddr
  have hEq : a = addr := Option.some.inj haddr
  subst hEq
  have htt : t' = t := by
    rw [ht'] at hnt
    exact Option.some.inj hnt
  subst htt
  refine ⟨?_, a, ht', hp⟩
  simp [channel_group_text, lc_hashgroup, sha_ok, ha, ht']

/-- What a successful `lc_channel_new` returns: the channel is appended to
`chan_list`, carries the URI it was created with, and, when that URI is not
NULL, an address whose numeric text is the hashed group address of the URI. -/
theorem lc_channel_new_spec (host : Endian) (sha : sha_returns) (stack : String)
    (g g' : lc_globals) (ctx : Option lc_ctx_t) (uri : Option (List Nat)) (c : lc_channel_t)
    (h : lc_channel_new host sha stack g ctx uri = (g', some c)) :
    g'.chan_list = g.chan_list ++ [c] ∧ c.uri = uri ∧
    ∀ u, uri = some u → getnameinfo c.address = some (channel_group_text host u) := by
  unfold lc_channel_new at h
  split at h
  · simp at h
  · simp only at h
    split at h
    · simp at h
    · rename_i hcode
      split at h
      · simp at h
      · rename_i addr haddr
        simp only [Prod.mk.injEq, Option.some.injEq] at h
        obtain ⟨hg, hc⟩ := h
        refine ⟨by rw [← hg, ← hc], by rw [← hc], ?_⟩
        intro u hu
        subst hu
        have hsucc : lc_hashgroup host sha DEFAULT_ADDR (some u) stack 0
            = (lc_code.success, (lc_hashgroup host sha DEFAULT_ADDR (some u) stack 0).2) := by
          have h1 : (lc_hashgroup host sha DEFAULT_ADDR (some u) stack 0).1 = lc_code.success := by
            by_contra hne
            exact hcode hne
          rw [← h1]
        obtain ⟨ht, a, hnt, hpt⟩ := lc_hashgroup_default_text host sha u stack _ hsucc
        rw [getaddrinfo, hpt] at haddr
        have ha : a = addr := Option.some.inj haddr
        rw [← hc]
        show getnameinfo addr = _
        rw [getnameinfo, ← ha, hnt, ht]

/-- A failed `lc_channel_new` leaves `chan_list` alone. -/
theorem lc_channel_new_none (host : Endian) (sha : sha_returns) (stack : String)
    (g g' : lc_globals) (ctx : Option lc_ctx_t) (uri : Option (List Nat))
    (h : lc_channel_new host sha stack g ctx uri = (g', none)) :
    g'.chan_list = g.chan_list := by
  unfold lc_channel_new at h
  split at h
  · simp only [Prod.mk.injEq, and_true] at h
    rw [h]
  · simp only at h
    split at h
    · simp only [Prod.mk.injEq, and_true] at h
      rw [h]
    · split at h
      · simp only [Prod.mk.injEq, and_true] at h
        rw [h]
      · simp at h

/-- Registry invariant: after any run of `lc_channel_new` calls from the start of
the program, every registered channel with a URI has the hashed group address
of that URI as its address text. -/
theorem channel_new_all_inv (host : Endian)
    (calls : List (sha_returns × String × Option lc_ctx_t × Option (List Nat))) :
    ∀ (g : lc_globals),
      (∀ c ∈ g.chan_list, ∀ u, c.uri = some u →
        getnameinfo c.address = some (channel_group_text host u)) →
      ∀ c ∈ (channel_new_all host g calls).chan_list, ∀ u, c.uri = some u →
        getnameinfo c.address = some (channel_group_text host u) := by
  induction calls with
  | nil => intro g hg; exact hg
  | cons x rest ih =>
    obtain ⟨sha, stack, ctx, uri⟩ := x
    intro g hg
    apply ih
    intro c hc u hu
    cases hres : lc_channel_new host sha stack g ctx uri with
    | mk g' oc =>
      rw [hres] at hc
      cases oc with
      | none =>
        rw [lc_channel_new_none host sha stack g g' ctx uri hres] at hc
        exact hg c hc u hu
      | some c' =>
        obtain ⟨hl, huri, haddr⟩ := lc_channel_new_spec host sha stack g g' ctx uri c' hres
        simp only at hc
        rw [hl, List.mem_append, List.mem_singleton] at hc
        rcases hc with hc | hc
        · exact hg c hc u hu
        · subst hc
          exact haddr u (by rw [← huri, hu])

/-- The scan of `lc_channel_by_address_from` returns the first position whose
address text is `addr`, and finds one whenever some channel has that text. -/
theorem lc_channel_by_address_from_first (l : List lc_channel_t) (addr : String) :
    ∀ (i k : Nat) (c : lc_channel_t), l[k]? = some c → getnameinfo c.address = some addr →
      ∃ j, lc_channel_by_address_from l i addr = some (i + j) ∧ j ≤ k ∧
        (∃ cj, l[j]? = some cj ∧ getnameinfo cj.address = some addr) ∧
        ∀ m cm, m < j → l[m]? = some cm → getnameinfo cm.address ≠ some addr := by
  induction l with
  | nil => intro i k c hk; simp at hk
  | cons p rest ih =>
    intro i k c hk hc
    unfold lc_channel_by_address_from
    by_cases hp : getnameinfo p.address = some addr
    · refine ⟨0, ?_, Nat.zero_le _, ⟨p, List.getElem?_cons_zero, hp⟩, ?_⟩
      · simp [hp]
      · intro m cm hm; omega
    · cases k with
      | zero =>
        simp only [List.getElem?_cons_zero, Option.some.injEq] at hk
        rw [hk] at hp
        exact absurd hc hp
      | succ k =>
        simp only [List.getElem?_cons_succ] at hk
        obtain ⟨j, hj, hjk, hcj, hfirst⟩ := ih (i + 1) k c hk hc
        refine ⟨j + 1, ?_, by omega, ?_, ?_⟩
        · have hne : ∀ dst, getnameinfo p.address = some dst → ¬ addr = dst := by
            intro dst hg he
            rw [hg, he] at hp
            exact hp rfl
          cases hg : getnameinfo p.address with
          | none =>
            simp only []
            rw [hj]
            congr 1
            omega
          | some dst =>
            simp only [if_neg (hne dst hg)]
            rw [hj]
            congr 1
            omega
        · simpa using hcj
        · intro m cm hm hcm
          cases m with
          | zero =>
            simp only [List.getElem?_cons_zero, Option.some.injEq] at hcm
            rw [← hcm]
            exact hp
          | succ m =>
            simp only [List.getElem?_cons_succ] at hcm
            exact hfirst m cm (by omega) hcm


/-- The registry after a run of `lc_channel_new` calls is the registry before
followed by the channels the calls returned. -/
theorem channel_new_all_chan_list (host : Endian)
    (calls : List (sha_returns × String × Option lc_ctx_t × Option (List Nat))) :
    ∀ (g : lc_globals), (channel_new_all host g calls).chan_list
      = g.chan_list ++ channel_new_results host g calls := by
  induction calls with
  | nil => intro g; simp [channel_new_all, channel_new_results]
  | cons x rest ih =>
    obtain ⟨sha, stack, ctx, uri⟩ := x
    intro g
    show (channel_new_all host (lc_channel_new host sha stack g ctx uri).1 rest).chan_list = _
    rw [ih]
    cases hres : lc_channel_new host sha stack g ctx uri with
    | mk g' oc =>
      cases oc with
      | none =>
        simp only [channel_new_results, hres]
        rw [lc_channel_new_none host sha stack g g' ctx uri hres]
      | some c =>
        simp only [channel_new_results, hres]
        rw [(lc_channel_new_spec host sha stack g g' ctx uri c hres).1, List.append_assoc]
        rfl

/-- Two channels created for the same URI: the lookup of the hashed group address
returns the first of them (position 0), not the second (position 1), although
the second is a different channel (id 2) created with the same URI. -/
theorem lc_channel_by_address_duplicate_uri :
    channel_new_results Endian.little lc_globals_init [new_call "chan/x", new_call "chan/x"]
      = [chan_x, { chan_x with id := 2 }] ∧
    (channel_new_all Endian.little lc_globals_init [new_call "chan/x", new_call "chan/x"]).chan_list
      = [chan_x, { chan_x with id := 2 }] ∧
    lc_channel_by_address
      (channel_new_all Endian.little lc_globals_init
        [new_call "chan/x", new_call "chan/x"]).chan_list
      (channel_group_text Endian.little (cstr "chan/x")) = some 0 := by
  decide

/-- C11 (amended): after any run of `lc_channel_new` calls from the start of the
process, for the channel `c` returned by the `k`-th successful call, with URI `u`,
the text of `c`s address is the group address hashed from the default base and
`u`, and `lc_channel_by_address` on that text returns the first channel of the
registry with that address text: a channel at a position `j ≤ k` with the same
address text, no channel before `j` having it.  It returns `c` itself when no
channel created before `c` has the address text of `c`. -/
theorem lc_channel_by_address_first (host : Endian)
    (calls : List (sha_returns × String × Option lc_ctx_t × Option (List Nat)))
    (k : Nat) (c : lc_channel_t) (u : List Nat)
    (hk : (channel_new_results host lc_globals_init calls)[k]? = some c)
    (hu : c.uri = some u) :
    getnameinfo c.address = some (channel_group_text host u) ∧
    (channel_new_all host lc_globals_init calls).chan_list[k]? = some c ∧
    ∃ j cj,
      lc_channel_by_address (channel_new_all host lc_globals_init calls).chan_list
        (channel_group_text host u) = some j ∧
      j ≤ k ∧
      (channel_new_all host lc_globals_init calls).chan_list[j]? = some cj ∧
      getnameinfo cj.address = getnameinfo c.address ∧
      (∀ m cm, m < j → (channel_new_all host lc_globals_init calls).chan_list[m]? = some cm →
        getnameinfo cm.address ≠ getnameinfo c.address) ∧
      ((∀ m cm, m < k → (channel_new_all host lc_globals_init calls).chan_list[m]? = some cm →
        getnameinfo cm.address ≠ getnameinfo c.address) → j = k ∧ cj = c) := by
  have hreg : (channel_new_all host lc_globals_init calls).chan_list
      = channel_new_results host lc_globals_init calls := by
    rw [channel_new_all_chan_list]
    rfl
  have hk2 : (channel_new_all host lc_globals_init calls).chan_list[k]? = some c := by
    rw [hreg]
    exact hk
  have haddr : getnameinfo c.address = some (channel_group_text host u) :=
    channel_new_all_inv host calls lc_globals_init (fun c hc => by cases hc) c
      (List.getElem?_mem hk2) u hu
  obtain ⟨j, hj, hjk, ⟨cj, hcj, hcja⟩, hfirst⟩ :=
    lc_channel_by_address_from_first (channel_new_all host lc_globals_init calls).chan_list
      (channel_group_text host u) 0 k c hk2 haddr
  refine ⟨haddr, hk2, j, cj, ?_, hjk, hcj, by rw [hcja, haddr], ?_, ?_⟩
  · rw [lc_channel_by_address, hj, Nat.zero_add]
  · intro m cm hm hcm
    rw [haddr]
    exact hfirst m cm hm hcm
  · intro hnone
    have hjk2 : j = k := by
      by_contra hne
      exact hnone j cj (by omega) hcj (by rw [hcja, haddr])
    subst hjk2
    rw [hk2] at hcj
    exact ⟨rfl, (Option.some.inj hcj).symm⟩

theorem lc_channel_by_address_first_witness :
    lc_channel_by_address
      (channel_new_all Endian.little lc_globals_init
        [new_call "chan/x", new_call "chan/y"]).chan_list
      (channel_group_text Endian.little (cstr "chan/y")) = some 1 := by
  obtain ⟨_, _, j, cj, hj, _, _, _, _, hjk⟩ :=
    lc_channel_by_address_first Endian.little [new_call "chan/x", new_call "chan/y"] 1 chan_y
      (cstr "chan/y") (by decide) (by decide)
  have h1 : (channel_new_all Endian.little lc_globals_init
      [new_call "chan/x", new_call "chan/y"]).chan_list = [chan_x, chan_y] := by decide
  rw [h1] at hjk
  have h2 : j = 1 := (hjk (by
    intro m cm hm hcm
    have hm0 : m = 0 := by omega
    subst hm0
    simp only [List.getElem?_cons_zero, Option.some.injEq] at hcm
    subst hcm
    decide)).1
  rw [hj, h2]

/-! ### Receive loop: the opcode of delivered messages -/

/-- The length `lc_msg_recv` returns does not depend on the old `dst` and `src`. -/
theorem lc_msg_recv_len_indep (r : recvmsg_result) (dst src : List Nat) :
    (lc_msg_recv r dst src).len = (lc_msg_recv r [] []).len := by
  cases r with
  | error => rfl
  | datagram bytes pktinfo => rw [lc_msg_recv_len, lc_msg_recv_len]

/-- The buffer `lc_msg_recv` fills does not depend on the old `dst` and `src`. -/
theorem lc_msg_recv_buf_indep (r : recvmsg_result) (dst src : List Nat) :
    (lc_msg_recv r dst src).buf = (lc_msg_recv r [] []).buf := by
  cases r with
  | error => rfl
  | datagram bytes pktinfo => rw [lc_msg_recv_buf, lc_msg_recv_buf]

/-- The fill of the receive loop leaves `op` as it found it. -/
theorem listen_fill_op (msg : lc_message_t) (sockid : Nat) (head : lc_message_head_t)
    (rcv : recv_result) : (listen_fill msg sockid head rcv).op = msg.op := rfl

/-- On a zeroed struct the fill gives the message of `listen_message`. -/
theorem listen_fill_init (sockid : Nat) (head : lc_message_head_t) (rcv : recv_result) :
    listen_fill lc_msg_init sockid head rcv = listen_message sockid head rcv := rfl

/-- Every defined pass ends with the struct zeroed, and a message it hands to the
callback carries the `op` the pass found in the struct. -/
theorem lc_socket_listen_thread_pass_spec (host : Endian) (sockid : Nat)
    (cb : Option (lc_message_t → lc_message_t))
    (chan_list : List lc_channel_t) (dst src : List Nat) (msg : lc_message_t)
    (r : recvmsg_result) (res : listen_result) (msg1 : lc_message_t)
    (h : lc_socket_listen_thread_pass host sockid cb chan_list dst src msg r
      = some (res, msg1)) :
    msg1 = lc_msg_init ∧ ∀ m, res.delivered = some m → m.op = msg.op ∧ m.sockid = sockid := by
  unfold lc_socket_listen_thread_pass at h
  simp only at h
  split at h
  · split at h
    · cases h
    · split at h
      · simp only [Option.some.injEq, Prod.mk.injEq] at h
        obtain ⟨hres, hm⟩ := h
        refine ⟨by rw [← hm]; rfl, ?_⟩
        intro m hd
        rw [← hres] at hd
        simp only at hd
        split at hd
        · cases hd
          exact ⟨rfl, rfl⟩
        · cases hd
      · simp only [Option.some.injEq, Prod.mk.injEq] at h
        obtain ⟨hres, hm⟩ := h
        refine ⟨by rw [← hm]; rfl, ?_⟩
        intro m hd
        rw [← hres] at hd
        simp only at hd
        split at hd
        · cases hd
          exact ⟨rfl, rfl⟩
        · cases hd
  · split at h
    · cases h
    · simp only [Option.some.injEq, Prod.mk.injEq] at h
      obtain ⟨hres, hm⟩ := h
      refine ⟨by rw [← hm]; rfl, ?_⟩
      intro m hd
      rw [← hres] at hd
      cases hd

/-- A pass over a non-empty datagram whose header `len` stays within the receive
buffer is defined, and hands the filled struct to the callback when there is one. -/
theorem lc_socket_listen_thread_pass_defined (host : Endian) (sockid : Nat)
    (cb : Option (lc_message_t → lc_message_t))
    (chan_list : List lc_channel_t) (dst src : List Nat) (msg : lc_message_t)
    (r : recvmsg_result)
    (hpos : (lc_msg_recv r [] []).len > 0)
    (hin : sizeof_lc_message_head_t + (read_header host (lc_msg_recv r [] []).buf).len
      ≤ BUFSIZE) :
    ∃ res, lc_socket_listen_thread_pass host sockid cb chan_list dst src msg r
        = some (res, lc_msg_init) ∧
      res.delivered = (if cb.isSome then some (listen_fill msg sockid
        (read_header host (lc_msg_recv r dst src).buf) (lc_msg_recv r dst src)) else none) := by
  rw [← lc_msg_recv_len_indep r dst src] at hpos
  rw [← lc_msg_recv_buf_indep r dst src] at hin
  unfold lc_socket_listen_thread_pass
  simp only [hpos, if_true, not_lt.mpr hin, if_false, gt_iff_lt]
  split
  · exact ⟨_, rfl, rfl⟩
  · exact ⟨_, rfl, rfl⟩

/-- In every defined run of passes that starts from a struct whose `op` is zero,
each message handed to the callback has `op` zero. -/
theorem lc_socket_listen_thread_loop_op (host : Endian) (sockid : Nat)
    (cb : Option (lc_message_t → lc_message_t)) (rs : List recvmsg_result) :
    ∀ (chan_list : List lc_channel_t) (dst src : List Nat) (msg : lc_message_t)
      (out : List listen_result), msg.op = 0 →
      lc_socket_listen_thread_loop host sockid cb chan_list dst src msg rs = some out →
      ∀ res ∈ out, ∀ m, res.delivered = some m → m.op = 0 := by
  induction rs with
  | nil =>
    intro chan_list dst src msg out _ h res hres
    simp only [lc_socket_listen_thread_loop, Option.some.injEq] at h
    rw [← h] at hres
    cases hres
  | cons r rs ih =>
    intro chan_list dst src msg out hop h res hres m hm
    simp only [lc_socket_listen_thread_loop] at h
    split at h
    · cases h
    · rename_i res1 msg1 hpass
      obtain ⟨hzero, hdel⟩ := lc_socket_listen_thread_pass_spec host sockid cb chan_list
        dst src msg r res1 msg1 hpass
      split at h
      · cases h
      · rename_i out1 hloop
        simp only [Option.some.injEq] at h
        rw [← h, List.mem_cons] at hres
        rcases hres with hres | hres
        · rw [hres] at hm
          rw [(hdel m hm).1, hop]
        · exact ih res1.chan_list res1.dst res1.src msg1 out1 (by rw [hzero]; rfl) hloop
            res hres m hm

/-- Runs without a failed `recvmsg` and without an over-read: run the receive
loop from its start over any list of received datagrams, each non-empty and
with a header `len` that stays within the receive buffer, with
a message callback installed that may leave anything in the struct.  Every pass is
defined and hands one message to the callback, and each of these messages has
`op` equal to zero and the socket id of the listening socket, whatever opcode
byte the header of its datagram carries. -/
theorem lc_socket_listen_thread_op_zero (host : Endian) (sockid : Nat)
    (cb : lc_message_t → lc_message_t)
    (chan_list : List lc_channel_t) (dst src : List Nat) (rs : List recvmsg_result)
    (hrs : ∀ r ∈ rs, (lc_msg_recv r [] []).len > 0 ∧
      sizeof_lc_message_head_t + (read_header host (lc_msg_recv r [] []).buf).len ≤ BUFSIZE) :
    ∃ out, lc_socket_listen_thread host sockid (some cb) chan_list dst src rs = some out ∧
      out.length = rs.length ∧
      ∀ res ∈ out, ∃ m, res.delivered = some m ∧ m.op = 0 ∧ m.sockid = sockid := by
  have hloop : ∀ (rs : List recvmsg_result),
      (∀ r ∈ rs, (lc_msg_recv r [] []).len > 0 ∧
        sizeof_lc_message_head_t + (read_header host (lc_msg_recv r [] []).buf).len
          ≤ BUFSIZE) →
      ∀ (chan_list : List lc_channel_t) (dst src : List Nat) (msg : lc_message_t),
        msg.op = 0 →
        ∃ out, lc_socket_listen_thread_loop host sockid (some cb) chan_list dst src msg rs
            = some out ∧ out.length = rs.length ∧
          ∀ res ∈ out, ∃ m, res.delivered = some m ∧ m.op = 0 ∧ m.sockid = sockid := by
    intro rs
    induction rs with
    | nil =>
      intro _ chan_list dst src msg _
      exact ⟨[], rfl, rfl, fun res hres => by cases hres⟩
    | cons r rs ih =>
      intro hall chan_list dst src msg hop
      obtain ⟨hpos, hin⟩ := hall r (List.mem_cons_self _ _)
      obtain ⟨res1, hpass, hdel⟩ := lc_socket_listen_thread_pass_defined host sockid (some cb)
        chan_list dst src msg r hpos hin
      obtain ⟨out1, hout, hlen, hops⟩ := ih (fun r hr => hall r (List.mem_cons_of_mem _ hr))
        res1.chan_list res1.dst res1.src lc_msg_init rfl
      refine ⟨res1 :: out1, ?_, by rw [List.length_cons, List.length_cons, hlen], ?_⟩
      · simp only [lc_socket_listen_thread_loop, hpass, hout]
      · intro res hres
        rw [List.mem_cons] at hres
        rcases hres with hres | hres
        · rw [hres]
          exact ⟨_, hdel, hop, rfl⟩
        · exact hops res hres
  exact hloop rs hrs chan_list dst src lc_msg_init rfl

/-- A run over two datagrams with the opcode bytes 7 and 255 in their
headers, and a callback that writes 9 into `op` of the struct it is handed. -/
theorem lc_socket_listen_thread_op_zero_witness :
    ∃ out, lc_socket_listen_thread Endian.little 7
        (some (fun m => { m with op := 9 })) [chan_x] [] []
        [datagram_op 7, datagram_op 255] = some out ∧
      out.length = [datagram_op 7, datagram_op 255].length ∧
      ∀ res ∈ out, ∃ m, res.delivered = some m ∧ m.op = 0 ∧ m.sockid = 7 :=
  lc_socket_listen_thread_op_zero Endian.little 7 (fun m => { m with op := 9 })
    [chan_x] [] [] [datagram_op 7, datagram_op 255] (by decide)

/-- C15: a run of the receive loop in which the first `recvmsg` fails and the
second delivers a 27-byte datagram (opcode byte 7, payload `hi`).  The failed
pass calls `free(msg)` and goes on to `free(msg->data)` and `bzero(msg, ...)`,
and the next pass fills the freed struct and hands it to the message callback:
C defines nothing about the `op` the callback reads, and the run has no defined
result.  The same datagram received first is delivered with `op` 0, and so is a
datagram with opcode byte 255 received after it. -/
theorem lc_socket_listen_thread_after_error :
    lc_socket_listen_thread Endian.little 7 (some (fun m => m)) [chan_x] [] []
      [recvmsg_result.error, datagram_op 7] = none ∧
    lc_socket_listen_thread_pass Endian.little 7 (some (fun m => m)) [chan_x] [] []
      lc_msg_init recvmsg_result.error = none ∧
    (lc_socket_listen_thread Endian.little 7 (some (fun m => m)) [chan_x] [] []
      [datagram_op 7, datagram_op 255]).map
        (fun out => out.map (fun res => res.delivered.map (fun m => (m.op, m.len, m.data))))
      = some [some (0, 2, [104, 105]), some (0, 2, [104, 105])] := by
  decide

/-! ### Key/value framing -/

/-- Reading the `int` that holds an opcode below 256 through a pointer to an
opcode type of 1 to 4 bytes gives the opcode on a little-endian host, and on
any host when the type is as wide as `int`. -/
theorem uint_of_bytes_int (host : Endian) (w op : Nat) (hop : op < 256) (hw1 : 1 ≤ w)
    (hw4 : w ≤ 4) (hread : host = Endian.little ∨ w = 4) :
    uint_of_bytes host w (bytes_of_u32 host op) = op := by
  have h24 : op / 2^24 % 256 = 0 := by omega
  have h16 : op / 2^16 % 256 = 0 := by omega
  have h8 : op / 2^8 % 256 = 0 := by omega
  have h0 : op % 256 = op := by omega
  have hbe : be32 op = [0, 0, 0, op] := by
    simp only [be32, h24, h16, h8, h0]
  cases host with
  | little =>
    simp only [uint_of_bytes, bytes_of_u32, hbe]
    interval_cases w <;> simp [be_value, h0]
  | big =>
    rcases hread with h | h
    · cases h
    · subst h
      simp [uint_of_bytes, bytes_of_u32, hbe, be_value, h0]

/-- Framing on a host that reads the opcode back unchanged (little-endian, or an
opcode type as wide as `int`): for every key and value whose `size` bytes are
there to be read, on a channel whose context has a database (or can open one), `lc_channel_setval`
returns 0 after handing `lc_msg_send` a message with opcode `LC_OP_SET`, length
`8 + keylen + vallen` and, as payload, the 8-byte big-endian key length, the
key bytes and the value bytes.  The datagram built from it carries that opcode
byte, that length and that payload behind the 25-byte header, and is what
`sendto` is given.  Key length, key and value are recoverable from the payload
and `len`. -/
theorem lc_channel_setval_frame (host : Endian) (sizeof_lc_opcode_t LC_OP_SET : Nat)
    (db : Bool) (db_open : lc_code) (dev : urandom_result) (mcast_if : Int)
    (chan : lc_channel_t) (key val : lc_val_t)
    (hkey : key.size = key.data.length) (hval : val.size = val.data.length)
    (hsize : 8 + key.size + val.size < 2^64)
    (hop : LC_OP_SET < 256) (hw1 : 1 ≤ sizeof_lc_opcode_t) (hw4 : sizeof_lc_opcode_t ≤ 4)
    (hread : host = Endian.little ∨ sizeof_lc_opcode_t = 4)
    (hdb : db = true ∨ db_open = lc_code.success) (hif : mcast_if ≠ 0) :
    ∃ msg s, lc_channel_setval host sizeof_lc_opcode_t LC_OP_SET db db_open dev mcast_if
        chan key val = some { code := lc_code.success, msg := some msg, send := some s } ∧
      msg.op = LC_OP_SET ∧
      msg.data = be64 key.size ++ key.data ++ val.data ∧
      msg.len = 8 + key.size + val.size ∧
      s = lc_msg_send host dev mcast_if (some chan) msg ∧
      s.sent = some s.buf ∧
      s.buf.getD 16 0 = LC_OP_SET ∧
      (s.buf.drop 17).take 8 = be64 (8 + key.size + val.size) ∧
      s.buf.drop sizeof_lc_message_head_t = be64 key.size ++ key.data ++ val.data ∧
      be_value (msg.data.take 8) = key.size ∧
      (msg.data.drop 8).take key.size = key.data ∧
      msg.data.drop (8 + key.size) = val.data ∧
      val.data.length = msg.len - 8 - key.size := by
  have hnodb : ¬ (db = false ∧ db_open ≠ lc_code.success) := by
    rintro ⟨h1, h2⟩
    rcases hdb with h | h
    · rw [h] at h1; cases h1
    · exact h2 h
  have hdef : ¬ (key.data.length < key.size ∨ val.data.length < val.size
      ∨ 2^64 ≤ 8 + key.size + val.size ∨ 4 < sizeof_lc_opcode_t) := by
    omega
  have hpkt : bytes_of_u64 host (htobe64 host key.size) ++ key.data.take key.size
      ++ val.data.take val.size = be64 key.size ++ key.data ++ val.data := by
    rw [bytes_of_u64_htobe64, hkey, hval, List.take_length, List.take_length]
  have hlen : (be64 key.size ++ key.data ++ val.data).length = 8 + key.size + val.size := by
    simp only [List.length_append, be64_length, hkey, hval]
  have hbuf := lc_msg_send_buf host dev mcast_if chan
    { data := be64 key.size ++ key.data ++ val.data, len := 8 + key.size + val.size,
      op := LC_OP_SET, seq := 0, rnd := 0, sockid := 0, src := [], dst := [] }
  simp only [Nat.mod_eq_of_lt hsize, Nat.mod_eq_of_lt hop] at hbuf
  have htake : (be64 key.size ++ key.data ++ val.data
      ++ List.replicate (8 + key.size + val.size) 0).take (8 + key.size + val.size)
      = be64 key.size ++ key.data ++ val.data := by
    rw [← hlen, List.take_left]
  rw [htake] at hbuf
  obtain ⟨a, b, c, d, e, f, g, h, hr, -⟩ := lc_getrandom_eight dev
  rw [hr] at hbuf
  refine ⟨lc_message_t.mk (be64 key.size ++ key.data ++ val.data) (8 + key.size + val.size)
      LC_OP_SET 0 0 0 [] [], _, ?_, rfl, rfl, rfl, rfl, ?_, ?_, ?_, ?_, ?_, ?_, ?_, ?_⟩
  · unfold lc_channel_setval
    rw [if_neg hnodb, if_neg hdef]
    simp only [hpkt, lc_msg_set, lc_msg_init_data, lc_msg_init, Nat.mod_eq_of_lt hsize,
      uint_of_bytes_int host sizeof_lc_opcode_t LC_OP_SET hop hw1 hw4 hread]
  · simp only [lc_msg_send, if_pos hif]
  · rw [hbuf]
    simp [be64]
  · rw [hbuf]
    simp [be64]
  · rw [hbuf]
    simp [be64, sizeof_lc_message_head_t]
  · show be_value ((be64 key.size ++ key.data ++ val.data).take 8) = key.size
    rw [List.append_assoc, List.take_left' (be64_length _), be_value_be64]
    exact Nat.mod_eq_of_lt (by omega)
  · show ((be64 key.size ++ key.data ++ val.data).drop 8).take key.size = key.data
    rw [List.append_assoc, List.drop_left' (be64_length _), hkey, List.take_left]
  · show (be64 key.size ++ key.data ++ val.data).drop (8 + key.size) = val.data
    rw [List.drop_left' (by simp only [List.length_append, be64_length, hkey])]
  · show val.data.length = 8 + key.size + val.size - 8 - key.size
    omega

/-- The framing of key `k1`, value `v`, on a little-endian host with a one-byte
opcode type and `LC_OP_SET` equal to 4. -/
theorem lc_channel_setval_frame_witness :
    ∃ msg s, lc_channel_setval Endian.little 1 4 true lc_code.success
        (urandom_result.bytes [1, 2, 3, 4, 5, 6, 7, 8]) (-1) chan_x
        { size := 2, data := cstr "k1" } { size := 1, data := cstr "v" }
        = some { code := lc_code.success, msg := some msg, send := some s } ∧
      msg.op = 4 ∧ msg.len = 11 ∧
      msg.data = [0, 0, 0, 0, 0, 0, 0, 2, 107, 49, 118] ∧
      s.sent = some s.buf ∧ s.buf.getD 16 0 = 4 := by
  obtain ⟨msg, s, h, hop, hdata, hlen, _, hsent, hbyte, _⟩ :=
    lc_channel_setval_frame Endian.little 1 4 true lc_code.success
      (urandom_result.bytes [1, 2, 3, 4, 5, 6, 7, 8]) (-1) chan_x
      { size := 2, data := cstr "k1" } { size := 1, data := cstr "v" }
      (by decide) (by decide) (by decide) (by decide) (by decide) (by decide)
      (Or.inl rfl) (Or.inl rfl) (by decide)
  exact ⟨msg, s, h, hop, hlen, hdata, hsent, hbyte⟩

/-- Without a database handle in the context and with `lc_db_open` failing,
`lc_channel_setval` returns the error of `lc_db_open` and sends nothing. -/
theorem lc_channel_setval_no_db (host : Endian) (sizeof_lc_opcode_t LC_OP_SET : Nat)
    (dev : urandom_result) (mcast_if : Int) (chan : lc_channel_t) (key val : lc_val_t) :
    lc_channel_setval host sizeof_lc_opcode_t LC_OP_SET false lc_code.LC_ERROR_DB_OPEN dev
      mcast_if chan key val
      = some { code := lc_code.LC_ERROR_DB_OPEN, msg := none, send := none } := by
  unfold lc_channel_setval
  rw [if_pos ⟨rfl, by decide⟩]

/-! ### Id counters -/

/-- A draw of four bytes replaces the whole counter: its old value does not
matter. -/
theorem lc_getrandom_u32 (host : Endian) (a b c d old : Nat) :
    u32_of_bytes host (lc_getrandom (urandom_result.bytes [a, b, c, d])
      (bytes_of_u32 host old) 4).2
      = u32_of_bytes host [a % 256, b % 256, c % 256, d % 256] := by
  cases host <;> rfl

/-- When `/dev/urandom` delivers four bytes to each draw, what `lc_ctx_new` returns
and the three counters it leaves do not depend on the counters it found: every
call seeds them anew. -/
theorem lc_ctx_new_reseeds (host : Endian) (env : ctx_env) (g g1 : lc_globals)
    (a b c d a1 b1 c1 d1 a2 b2 c2 d2 : Nat)
    (hctx : env.dev_ctx = urandom_result.bytes [a, b, c, d])
    (hsock : env.dev_sock = urandom_result.bytes [a1, b1, c1, d1])
    (hchan : env.dev_chan = urandom_result.bytes [a2, b2, c2, d2]) :
    (lc_ctx_new host env g).2 = (lc_ctx_new host env g1).2 ∧
    (lc_ctx_new host env g).1.ctx_id = (lc_ctx_new host env g1).1.ctx_id ∧
    (lc_ctx_new host env g).1.sock_id = (lc_ctx_new host env g1).1.sock_id ∧
    (lc_ctx_new host env g).1.chan_id = (lc_ctx_new host env g1).1.chan_id := by
  unfold lc_ctx_new
  simp only [hctx, hsock, hchan, lc_getrandom_u32]
  split
  · exact ⟨rfl, rfl, rfl, rfl⟩
  · split
    · exact ⟨rfl, rfl, rfl, rfl⟩
    · split
      · exact ⟨rfl, rfl, rfl, rfl⟩
      · split
        · exact ⟨rfl, rfl, rfl, rfl⟩
        · split <;> exact ⟨rfl, rfl, rfl, rfl⟩

/-- C14: a process creates a context, a socket and a channel, then a second
context, a second socket and a second channel; `/dev/urandom` delivers the same
bytes to the draws of the second `lc_ctx_new` as to those of the first.  Both
contexts get id 17, both sockets id 33 and both channels id 49: `lc_ctx_new`
overwrites the three counters that the earlier calls had incremented. -/
theorem lc_ctx_new_repeats_ids :
    (lc_ctx_new Endian.little ctx_env_ok lc_globals_init).2 = some { id := 17 } ∧
    (lc_socket_new (lc_ctx_new Endian.little ctx_env_ok lc_globals_init).1 3).2.sock
      = { thread := 0, id := 33, socket := 3 } ∧
    (lc_channel_new Endian.little sha_ok ""
      (lc_socket_new (lc_ctx_new Endian.little ctx_env_ok lc_globals_init).1 3).1
      (some { id := 17 }) (some (cstr "chan/x"))).2 = some { chan_x with id := 49 } ∧
    (lc_channel_new Endian.little sha_ok ""
      (lc_socket_new (lc_ctx_new Endian.little ctx_env_ok lc_globals_init).1 3).1
      (some { id := 17 }) (some (cstr "chan/x"))).1
      = { ctx_id := 17, sock_id := 33, chan_id := 49, chan_list := [{ chan_x with id := 49 }] } ∧
    (lc_ctx_new Endian.little ctx_env_ok
      { ctx_id := 17, sock_id := 33, chan_id := 49,
        chan_list := [{ chan_x with id := 49 }] }).2 = some { id := 17 } ∧
    (lc_socket_new (lc_ctx_new Endian.little ctx_env_ok
      { ctx_id := 17, sock_id := 33, chan_id := 49,
        chan_list := [{ chan_x with id := 49 }] }).1 4).2.sock
      = { thread := 0, id := 33, socket := 4 } ∧
    (lc_channel_new Endian.little sha_ok ""
      (lc_socket_new (lc_ctx_new Endian.little ctx_env_ok
        { ctx_id := 17, sock_id := 33, chan_id := 49,
          chan_list := [{ chan_x with id := 49 }] }).1 4).1
      (some { id := 17 }) (some (cstr "chan/y"))).2 = some { chan_y with id := 49 } := by
  decide

end Librecast
